import Mathlib

/-!
Verification of the tabular feature composer of `pytorch_widedeep`
(`pytorch_widedeep/models/tab_mlp.py`): the `GEGLU` activation module,
the `dense_layer` builder, the `MLP` stack and the `TabMlp` model.

Modelling conventions (a shallow embedding of the Python/PyTorch code):
* tensors are batches `List (List ℚ)` (rows × feature columns); real-valued
  entries are rationals;
* fallible Python code returns `Except PyErr`; the constructors name the
  Python exception classes that the code (or the tensor library) raises;
* `torch` modules built by the code are values of the inductive `Layer`;
  a freshly constructed `nn.Linear`/`nn.Embedding` holds randomly sampled
  weights, modelled by explicit initializer functions that supply every
  sampled entry, so tables and matrices are always well-shaped, as in torch;
* evaluation is in inference mode (`model.eval()`): `nn.Dropout` is the
  identity; a freshly constructed `nn.BatchNorm1d` applies the same scalar
  map to every entry (running mean 0, variance 1, affine 1/0), which is
  transcendental over ℚ and is therefore an explicit function parameter
  `bnm`; similarly `gelu` is the parameter `g`, and `nn.LayerNorm`'s
  reciprocal standard deviation is the parameter `invStd`;
* `nn.ModuleDict` keys are the literal strings `"emb_layer_" ++ col` built
  by the source; embedding-spec column names are unique per the data model,
  under which dict insertion and first-match association-list lookup agree.
-/

/-- Python exception kinds raised by the modelled code or by torch. -/
inductive PyErr where
  | valueError
  | keyError
  | indexError
  | runtimeError
  | typeError
  | unboundLocalError
deriving DecidableEq

/-- The four activation objects `_get_activation_fn` can return. -/
inductive Act where
  | relu
  | leaky_relu
  | gelu
  | geglu
deriving DecidableEq

/-- A torch module appearing in a built `nn.Sequential`.  `linear` carries the
weight matrix (`out` rows of length `inp`) and the optional bias vector that
`nn.Linear` sampled at construction time. -/
inductive Layer where
  | batchNorm1d (numFeatures : Nat)
  | dropoutL (p : ℚ)
  | linear (inp out : Nat) (W : List (List ℚ)) (b : Option (List ℚ))
  | act (a : Act)
deriving DecidableEq

/-- `torch.Tensor.long()` truncates toward zero. -/
def toLong (q : ℚ) : Int := q.num.tdiv q.den

/-- `mapE f l` is the list comprehension `[f a for a in l]` with Python
exception propagation. -/
def mapE (f : α → Except PyErr β) : List α → Except PyErr (List β)
  | [] => .ok []
  | a :: l => do
    let b ← f a
    let bs ← mapE f l
    .ok (b :: bs)

/-- Left fold with Python exception propagation. -/
def foldE (f : β → α → Except PyErr β) : β → List α → Except PyErr β
  | b, [] => .ok b
  | b, a :: l => do
    let b2 ← f b a
    foldE f b2 l

/-- First-match association-list lookup (Python `dict` access, names unique). -/
def lookupStr (l : List (String × α)) (k : String) : Option α :=
  (l.find? (fun p => p.1 == k)).map (·.2)

/-- Python `d[k]`: raises `KeyError` when the key is missing. -/
def dget (l : List (String × α)) (k : String) : Except PyErr α :=
  match lookupStr l k with
  | some v => .ok v
  | none => .error .keyError

/-- A fresh weight matrix with `out` rows and `inp` columns, each entry
sampled by the initializer `f` (torch samples entrywise). -/
def mkMatrix (out inp : Nat) (f : Nat → Nat → ℚ) : List (List ℚ) :=
  (List.range out).map (fun i => (List.range inp).map (f i))

/-- A fresh vector of length `out` sampled entrywise by `f`. -/
def mkVec (out : Nat) (f : Nat → ℚ) : List ℚ :=
  (List.range out).map f

/-- `nn.Embedding(rows, dim, padding_idx=0)`: entries sampled by `f`, then the
padding row 0 is reset to zeros (`_fill_padding_idx_with_zero`). -/
def mkEmbedding (rows dim : Nat) (f : Nat → Nat → ℚ) : List (List ℚ) :=
  (List.range rows).map (fun r => if r = 0 then List.replicate dim 0 else (List.range dim).map (f r))

/-- Elementwise product with torch's length-1 broadcasting; incompatible
lengths raise a `RuntimeError` (shape mismatch). -/
def bmul (a b : List ℚ) : Except PyErr (List ℚ) :=
  if a.length = b.length then .ok (List.zipWith (· * ·) a b)
  else if b.length = 1 then .ok (a.map (· * b.getD 0 0))
  else if a.length = 1 then .ok (b.map (a.getD 0 0 * ·))
  else .error .runtimeError

namespace GEGLU

/-- `GEGLU.forward`: `x, gates = x.chunk(2, dim=-1); return x * F.gelu(gates)`.
`x.chunk(2)` splits off a first chunk of `⌈n/2⌉` entries.  On a width-1
input it returns a single chunk and the two-name unpacking raises a
`ValueError`; on a zero-size dim torch's `chunk` special-cases to exactly
two empty chunks, so the unpacking succeeds and the product is empty
(covered below by the `⌈0/2⌉ = 0` split).  `g` is the (transcendental)
scalar `F.gelu`. -/
def forward (g : ℚ → ℚ) (x : List ℚ) : Except PyErr (List ℚ) :=
  let n := x.length
  if n = 1 then .error .valueError
  else
    let csize := (n + 1) / 2
    bmul (x.take csize) ((x.drop csize).map g)

end GEGLU

/-- `allowed_activations` (module-level constant). -/
def allowed_activations : List String := ["relu", "leaky_relu", "gelu", "geglu"]

/-- `_get_activation_fn`: resolves an activation name; unknown names fall off
the `if`/`elif` chain and return `None`. -/
def _get_activation_fn (s : String) : Option Act :=
  if s = "relu" then some .relu
  else if s = "leaky_relu" then some .leaky_relu
  else if s = "gelu" then some .gelu
  else if s = "geglu" then some .geglu
  else none

/-- `dense_layer`: builds one dense block.  `'geglu'` is rejected with a
`ValueError`; an unresolvable activation leaves `act_fn = None` and
`nn.Sequential(*layers)` then raises a `TypeError`.  `initW`/`initB` supply
the entries torch samples for the fresh `nn.Linear`. -/
def dense_layer (inp out : Nat) (activation : String) (p : ℚ) (bn : Bool)
    ( linear_first : Bool) (initW : Nat → Nat → ℚ) (initB : Nat → ℚ) :
    Except PyErr (List Layer) :=
  if activation = "geglu" then .error .valueError
  else
    match _get_activation_fn activation with
    | none => .error .typeError
    | some aF =>
      let layers : List Layer :=
        if bn then [Layer.batchNorm1d (if linear_first then out else inp)] else []
      let layers := if p ≠ 0 then layers ++ [Layer.dropoutL p] else layers
      let lin : List Layer :=
        [Layer.linear inp out (mkMatrix out inp initW)
          (if bn then none else some (mkVec out initB)), Layer.act aF]
      .ok (if linear_first then lin ++ layers else layers ++ lin)

/-- The `dropout` argument of `MLP.__init__`: `None`, a float, or a list. -/
inductive DropoutArg where
  | absent
  | scalar (q : ℚ)
  | list (l : List ℚ)
deriving DecidableEq

/-- Python truthiness of the `dropout` argument (`not dropout`). -/
def DropoutArg.falsy : DropoutArg → Bool
  | .absent => true
  | .scalar q => q = 0
  | .list l => l.isEmpty

/-- The normalization of `MLP.__init__`'s `dropout` argument to a
per-position list of length `n = len(d_hidden)`: a falsy value becomes
`[0.0] * n`, a float broadcasts to `[q] * n`, a non-empty list stays. -/
def dropoutList (dropout : DropoutArg) (n : Nat) : List ℚ :=
  if dropout.falsy then List.replicate n 0
  else match dropout with
    | .absent => List.replicate n 0
    | .scalar q => List.replicate n q
    | .list l => l

namespace MLP

/-- `MLP.__init__`: normalizes `dropout` (see `dropoutList`) and chains
`len(d_hidden) - 1` dense blocks; block `i - 1` (loop index
`i ∈ range(1, len(d_hidden))`) maps `d_hidden[i-1] → d_hidden[i]` with
batch-norm flag `batchnorm and (i != len(d_hidden) - 1 or batchnorm_last)`.
A user list shorter than needed raises an `IndexError` at `dropout[i-1]`.
`initW`/`initB` supply block `i-1`'s fresh linear weights. -/
def make (d_hidden : List Nat) (activation : String) (dropout : DropoutArg)
    (batchnorm batchnorm_last linear_first : Bool)
    (initW : Nat → Nat → Nat → ℚ) (initB : Nat → Nat → ℚ) :
    Except PyErr (List (List Layer)) :=
  mapE (fun i =>
      match (dropoutList dropout d_hidden.length).get? (i - 1) with
      | some p =>
          dense_layer (d_hidden.getD (i - 1) 0) (d_hidden.getD i 0) activation p
            (batchnorm && (decide (i ≠ d_hidden.length - 1) || batchnorm_last)) linear_first
            (initW (i - 1)) (initB (i - 1))
      | none => Except.error PyErr.indexError)
    (List.range' 1 (d_hidden.length - 1))

end MLP

/-- The continuous-normalization module selected by `TabMlp.__init__`:
`nn.BatchNorm1d`, `nn.LayerNorm`, or `nn.Identity` (the silent fallback for
any unrecognized `cont_norm_layer` string). -/
inductive ContNorm where
  | batchnorm1d (k : Nat)
  | layernorm (k : Nat)
  | identity
deriving DecidableEq

/-- The keyword arguments of `TabMlp.__init__`, with the Python defaults. -/
structure TabMlpCfg where
  column_idx : List (String × Nat)
  embed_input : Option (List (String × Nat × Nat)) := none
  embed_dropout : ℚ := 1/10
  continuous_cols : Option (List String) := none
  cont_norm_layer : String := "batchnorm"
  mlp_hidden_dims : List Nat := [200, 100]
  mlp_activation : String := "relu"
  mlp_dropout : DropoutArg := .scalar (1/10)
  mlp_batchnorm : Bool := false
  mlp_batchnorm_last : Bool := false
  mlp_linear_first : Bool := false

/-- The attributes of a constructed `TabMlp` that its `forward` reads.
`embed_layers` is the `nn.ModuleDict` (keys `"emb_layer_" ++ col`, values the
embedding tables); `tab_mlp` is the built MLP stack. -/
structure TabMlpModel where
  column_idx : List (String × Nat)
  embed_input : Option (List (String × Nat × Nat))
  embed_layers : List (String × List (List ℚ))
  continuous_cols : Option (List String)
  cont_idx : List Nat
  cont_norm : ContNorm
  tab_mlp : List (List Layer)
  output_dim : Nat
deriving DecidableEq

namespace TabMlp

/-- `TabMlp.__init__`.  Validates `mlp_activation`, builds one embedding
table per spec entry (`nn.Embedding(val + 1, dim, padding_idx=0)`), resolves
the continuous column indices (`KeyError` on a missing name), selects the
continuous normalization layer, prepends the computed input width to
`mlp_hidden_dims`, builds the MLP stack, and records
`output_dim = mlp_hidden_dims[-1]`.  `embInit` supplies the fresh embedding
weights per column name; `linInitW`/`linInitB` the fresh linear weights per
block. -/
def make (cfg : TabMlpCfg) (embInit : String → Nat → Nat → ℚ)
    (linInitW : Nat → Nat → Nat → ℚ) (linInitB : Nat → Nat → ℚ) :
    Except PyErr TabMlpModel := do
  if cfg.mlp_activation ∉ allowed_activations then
    Except.error PyErr.valueError
  else
    let embed_layers : List (String × List (List ℚ)) :=
      match cfg.embed_input with
      | some specs =>
          specs.map (fun s => ("emb_layer_" ++ s.1, mkEmbedding (s.2.1 + 1) s.2.2 (embInit s.1)))
      | none => []
    let emb_inp_dim : Nat :=
      match cfg.embed_input with
      | some specs => (specs.map (fun s => s.2.2)).sum
      | none => 0
    let contPart ← match cfg.continuous_cols with
      | some cols => do
          let idxs ← mapE (fun c => dget cfg.column_idx c) cols
          let k := cols.length
          Except.ok (idxs, k,
            if cfg.cont_norm_layer = "batchnorm" then ContNorm.batchnorm1d k
            else if cfg.cont_norm_layer = "layernorm" then ContNorm.layernorm k
            else ContNorm.identity)
      | none => Except.ok ([], 0, ContNorm.identity)
    let input_dim := emb_inp_dim + contPart.2.1
    let d_hidden := input_dim :: cfg.mlp_hidden_dims
    let tab_mlp ← MLP.make d_hidden cfg.mlp_activation cfg.mlp_dropout
      cfg.mlp_batchnorm cfg.mlp_batchnorm_last cfg.mlp_linear_first linInitW linInitB
    Except.ok
      { column_idx := cfg.column_idx
        embed_input := cfg.embed_input
        embed_layers := embed_layers
        continuous_cols := cfg.continuous_cols
        cont_idx := contPart.1
        cont_norm := contPart.2.2
        tab_mlp := tab_mlp
        output_dim := d_hidden.getLastD 0 }

end TabMlp

/-- `table(idxs)` for one raw id: `nn.Embedding` indexes its weight table
directly (no offset); an id outside `[0, rows)` raises an `IndexError`. -/
def embLookup (table : List (List ℚ)) (v : Int) : Except PyErr (List ℚ) :=
  if 0 ≤ v ∧ v.toNat < table.length then .ok (table.getD v.toNat []) else .error .indexError

/-- `X[:, idx]`: one column of the batch; `IndexError` when out of range. -/
def colGather (X : List (List ℚ)) (idx : Nat) : Except PyErr (List ℚ) :=
  mapE (fun row => match row.get? idx with
    | some v => Except.ok v
    | none => Except.error PyErr.indexError) X

/-- `torch.cat([a, b], 1)`: rowwise concatenation; mismatched batch sizes
raise a `RuntimeError`. -/
def cat2 (a b : List (List ℚ)) : Except PyErr (List (List ℚ)) :=
  if a.length = b.length then .ok (List.zipWith (· ++ ·) a b) else .error .runtimeError

/-- `torch.cat(ts, 1)` over a list of blocks; `torch.cat` of an empty list
raises a `RuntimeError`. -/
def catCols : List (List (List ℚ)) → Except PyErr (List (List ℚ))
  | [] => .error .runtimeError
  | t :: ts => foldE cat2 t ts

namespace TabMlp

/-- One term `self.embed_layers["emb_layer_" + col](X[:, self.column_idx[col]].long())`
of the embedding list comprehension in `TabMlp.forward`. -/
def embedColumnForward (m : TabMlpModel) (s : String × Nat × Nat)
    (X : List (List ℚ)) : Except PyErr (List (List ℚ)) := do
  let table ← dget m.embed_layers ("emb_layer_" ++ s.1)
  let idx ← dget m.column_idx s.1
  let col ← colGather X idx
  mapE (fun v => embLookup table (toLong v)) col

/-- Inference-mode application of `self.cont_norm` to the gathered continuous
block.  `bnm` is the scalar map of a fresh `nn.BatchNorm1d` in eval mode;
a fresh `nn.LayerNorm` subtracts the row mean and multiplies by the
reciprocal standard deviation `invStd` of the row.  Both check the feature
width and raise a `RuntimeError` on mismatch. -/
def contNormApply (cn : ContNorm) (bnm : ℚ → ℚ) (invStd : List ℚ → ℚ)
    (X : List (List ℚ)) : Except PyErr (List (List ℚ)) :=
  match cn with
  | .batchnorm1d k =>
      mapE (fun row => if row.length = k then Except.ok (row.map bnm)
        else Except.error PyErr.runtimeError) X
  | .layernorm k =>
      mapE (fun row => if row.length = k then
          Except.ok (row.map (fun v => (v - (row.sum / row.length)) * invStd row))
        else Except.error PyErr.runtimeError) X
  | .identity => .ok X

/-- The feature-composition half of `TabMlp.forward` (everything before
`self.tab_mlp(x)`): returns `some x` when some feature block was assigned to
`x`, and `none` when both feature groups are absent (then `x` is unbound).
The shared embedding dropout is the identity in inference mode. -/
def composeFeatures (m : TabMlpModel) (bnm : ℚ → ℚ) (invStd : List ℚ → ℚ)
    (X : List (List ℚ)) : Except PyErr (Option (List (List ℚ))) := do
  let xEmb ← match m.embed_input with
    | some specs => do
        let embed ← mapE (fun s => embedColumnForward m s X) specs
        let x ← catCols embed
        Except.ok (some x)
    | none => Except.ok none
  match m.continuous_cols with
  | some _ => do
      let xcRaw ← mapE (fun row =>
        mapE (fun i => match row.get? i with
          | some v => Except.ok v
          | none => Except.error PyErr.indexError) m.cont_idx) X
      let x_cont ← contNormApply m.cont_norm bnm invStd xcRaw
      match xEmb with
      | some xe => do
          let x ← cat2 xe x_cont
          Except.ok (some x)
      | none => Except.ok (some x_cont)
  | none => Except.ok xEmb

end TabMlp

/-- Inference-mode evaluation of one torch layer on one row. -/
def layerEvalRow (g bnm : ℚ → ℚ) (l : Layer) (row : List ℚ) : Except PyErr (List ℚ) :=
  match l with
  | .batchNorm1d k =>
      if row.length = k then .ok (row.map bnm) else .error .runtimeError
  | .dropoutL _ => .ok row
  | .linear inp _ W b =>
      if row.length = inp then
        .ok (match b with
          | none => W.map (fun wr => (List.zipWith (· * ·) wr row).sum)
          | some bv => List.zipWith (fun wr bi => (List.zipWith (· * ·) wr row).sum + bi) W bv)
      else .error .runtimeError
  | .act a =>
      match a with
      | .relu => .ok (row.map (fun v => max v 0))
      | .leaky_relu => .ok (row.map (fun v => if v < 0 then v / 100 else v))
      | .gelu => .ok (row.map g)
      | .geglu => GEGLU.forward g row

/-- Inference-mode evaluation of one dense block (`nn.Sequential`) on a batch. -/
def blockEval (g bnm : ℚ → ℚ) (x : List (List ℚ)) (block : List Layer) :
    Except PyErr (List (List ℚ)) :=
  foldE (fun acc l => mapE (layerEvalRow g bnm l) acc) x block

/-- Inference-mode evaluation of the whole MLP stack on a batch. -/
def mlpForward (g bnm : ℚ → ℚ) (blocks : List (List Layer)) (x : List (List ℚ)) :
    Except PyErr (List (List ℚ)) :=
  foldE (blockEval g bnm) x blocks

namespace TabMlp

/-- `TabMlp.forward`: compose the feature blocks, then feed `x` to the MLP
stack; when both feature groups are absent, `x` was never assigned and
`self.tab_mlp(x)` raises an `UnboundLocalError`. -/
def forward (m : TabMlpModel) (g bnm : ℚ → ℚ) (invStd : List ℚ → ℚ)
    (X : List (List ℚ)) : Except PyErr (List (List ℚ)) := do
  let xOpt ← composeFeatures m bnm invStd X
  match xOpt with
  | some x => mlpForward g bnm m.tab_mlp x
  | none => Except.error PyErr.unboundLocalError

/-- The input-tensor column positions that `forward` reads: the Column Index
position of every embedding-spec column, plus `cont_idx` when continuous
columns are configured. -/
def refIdx (m : TabMlpModel) : List Nat :=
  (match m.embed_input with
   | some specs => specs.filterMap (fun s => lookupStr m.column_idx s.1)
   | none => []) ++
  (match m.continuous_cols with
   | some _ => m.cont_idx
   | none => [])

end TabMlp

/-- Two input rows agree on every column position the model reads. -/
def rowAgree (m : TabMlpModel) (r rr : List ℚ) : Prop :=
  ∀ i ∈ TabMlp.refIdx m, r.get? i = rr.get? i

/-- Layer-kind tests used to state structural claims about built blocks. -/
def Layer.isDropout : Layer → Bool
  | .dropoutL _ => true
  | _ => false

/-- Is the layer a `nn.BatchNorm1d`? -/
def Layer.isBN : Layer → Bool
  | .batchNorm1d _ => true
  | _ => false

/-- Is the layer a `nn.Linear`? -/
def Layer.isLinear : Layer → Bool
  | .linear _ _ _ _ => true
  | _ => false

/-- Does a batch-norm layer stand immediately next to a linear layer
somewhere in the sequence? -/
def bnAdjacentLinear : List Layer → Bool
  | x :: y :: rest =>
      (x.isBN && y.isLinear) || (x.isLinear && y.isBN) || bnAdjacentLinear (y :: rest)
  | _ => false

/-- The body of `dense_layer` once the activation has been resolved:
normalization (sized by ordering), then dropout (when `p ≠ 0`), with the
`[linear, activation]` pair prepended or appended per `linear_first`. -/
def denseList (inp out : Nat) (aF : Act) (p : ℚ) (bn lf : Bool)
    (initW : Nat → Nat → ℚ) (initB : Nat → ℚ) : List Layer :=
  let layers : List Layer :=
    if bn then [Layer.batchNorm1d (if lf then out else inp)] else []
  let layers := if p ≠ 0 then layers ++ [Layer.dropoutL p] else layers
  let lin : List Layer :=
    [Layer.linear inp out (mkMatrix out inp initW)
      (if bn then none else some (mkVec out initB)), Layer.act aF]
  if lf then lin ++ layers else layers ++ lin

/- Deterministic initializers used for the concrete scenarios (torch would
sample these values randomly; nothing below depends on their distribution). -/

/-- Zero embedding initializer. -/
def zE : String → Nat → Nat → ℚ := fun _ _ _ => 0

/-- Zero linear-weight initializer. -/
def zW : Nat → Nat → Nat → ℚ := fun _ _ _ => 0

/-- Zero linear-bias initializer. -/
def zB : Nat → Nat → ℚ := fun _ _ => 0

/-- An embedding initializer whose sampled row `r` is `[5 * r, …]`, so the
three rows of a `(2 + 1) × 1` table are pairwise distinct after padding. -/
def eI1 : String → Nat → Nat → ℚ := fun _ r _ => 5 * r

/-- One categorical column of cardinality 2 and dimension 1, no continuous
columns, and an empty `mlp_hidden_dims` (so the MLP stack is empty and
`forward` returns the composed features unchanged). -/
def cfg1 : TabMlpCfg :=
  { column_idx := [("a", 0)], embed_input := some [("a", 2, 1)], mlp_hidden_dims := [] }

/-- The model `TabMlp.__init__` builds from `cfg1` with the `eI1` weights:
its single embedding table is `[[0], [5], [10]]` (row 0 is the padding row). -/
def m1 : TabMlpModel :=
  { column_idx := [("a", 0)]
    embed_input := some [("a", 2, 1)]
    embed_layers := [("emb_layer_" ++ "a", [[0], [5], [10]])]
    continuous_cols := none
    cont_idx := []
    cont_norm := ContNorm.identity
    tab_mlp := []
    output_dim := 1 }

/-- Both feature groups absent; everything else defaulted. -/
def cfg2 : TabMlpCfg :=
  { column_idx := [], embed_input := none, continuous_cols := none }

/-- The model `TabMlp.__init__` builds from `cfg2`: input width 0, an MLP
`0 → 200 → 100`, and no feature group at all. -/
def m2 (wI : Nat → Nat → Nat → ℚ) (bI : Nat → Nat → ℚ) : TabMlpModel :=
  { column_idx := []
    embed_input := none
    embed_layers := []
    continuous_cols := none
    cont_idx := []
    cont_norm := ContNorm.identity
    tab_mlp := [denseList 0 200 Act.relu (1/10) false false (wI 0) (bI 0),
                denseList 200 100 Act.relu (1/10) false false (wI 1) (bI 1)]
    output_dim := 100 }

/-- The end-to-end scenario of the spec: columns `a..e`, four embedding
specs `(·, 4, 8)`, continuous column `e`, hidden dims `[8, 4]`. -/
def cfg9 : TabMlpCfg :=
  { column_idx := [("a", 0), ("b", 1), ("c", 2), ("d", 3), ("e", 4)]
    embed_input := some [("a", 4, 8), ("b", 4, 8), ("c", 4, 8), ("d", 4, 8)]
    continuous_cols := some ["e"]
    mlp_hidden_dims := [8, 4] }

/-- The model `TabMlp.__init__` builds from `cfg9`: input width 33 and an
MLP `33 → 8 → 4`. -/
def m9 (eI : String → Nat → Nat → ℚ) (wI : Nat → Nat → Nat → ℚ)
    (bI : Nat → Nat → ℚ) : TabMlpModel :=
  { column_idx := [("a", 0), ("b", 1), ("c", 2), ("d", 3), ("e", 4)]
    embed_input := some [("a", 4, 8), ("b", 4, 8), ("c", 4, 8), ("d", 4, 8)]
    embed_layers := [("emb_layer_" ++ "a", mkEmbedding 5 8 (eI "a")),
                     ("emb_layer_" ++ "b", mkEmbedding 5 8 (eI "b")),
                     ("emb_layer_" ++ "c", mkEmbedding 5 8 (eI "c")),
                     ("emb_layer_" ++ "d", mkEmbedding 5 8 (eI "d"))]
    continuous_cols := some ["e"]
    cont_idx := [4]
    cont_norm := ContNorm.batchnorm1d 1
    tab_mlp := [denseList 33 8 Act.relu (1/10) false false (wI 0) (bI 0),
                denseList 8 4 Act.relu (1/10) false false (wI 1) (bI 1)]
    output_dim := 4 }

/-- A concrete valid batch of 5 rows for `cfg9`: four in-range category ids
and one continuous value per row. -/
def X9 : List (List ℚ) := List.replicate 5 [1, 1, 1, 1, 1/2]

/-- The block built with `linear_first = true`, `bn = true`, `p = 1/2`:
the batch-norm stage is separated from the linear stage by the activation. -/
def cex5 : List Layer :=
  [Layer.linear 2 3 [[0, 0], [0, 0], [0, 0]] none, Layer.act Act.relu,
   Layer.batchNorm1d 3, Layer.dropoutL (1/2)]

/- ### Basic lemmas about the `Except` plumbing -/

@[simp]
lemma okBind {α β : Type} (a : α) (f : α → Except PyErr β) :
    (Except.ok a >>= f) = f a := rfl

@[simp]
lemma errBind {α β : Type} (e : PyErr) (f : α → Except PyErr β) :
    ((Except.error e : Except PyErr α) >>= f) = Except.error e := rfl

@[simp]
lemma mapE_nil {α β : Type} (f : α → Except PyErr β) : mapE f [] = .ok [] := rfl

@[simp]
lemma mapE_cons {α β : Type} (f : α → Except PyErr β) (a : α) (l : List α) :
    mapE f (a :: l) = f a >>= fun b => mapE f l >>= fun bs => Except.ok (b :: bs) := rfl

@[simp]
lemma foldE_nil {α β : Type} (f : β → α → Except PyErr β) (b : β) : foldE f b [] = .ok b := rfl

@[simp]
lemma foldE_cons {α β : Type} (f : β → α → Except PyErr β) (b : β) (a : α) (l : List α) :
    foldE f b (a :: l) = f b a >>= fun b2 => foldE f b2 l := rfl

/-- If `f` succeeds with property `P` on every element, `mapE` succeeds,
preserves length, and every output satisfies `P`. -/
lemma mapE_ok_of_forall {α β : Type} {f : α → Except PyErr β} {P : β → Prop} :
    ∀ {l : List α}, (∀ a ∈ l, ∃ b, f a = .ok b ∧ P b) →
      ∃ bs, mapE f l = .ok bs ∧ bs.length = l.length ∧ ∀ b ∈ bs, P b := by
  intro l
  induction l with
  | nil => exact fun _ => ⟨[], rfl, rfl, by simp⟩
  | cons a l ih =>
    intro h
    obtain ⟨b, hb, hPb⟩ := h a (by simp)
    obtain ⟨bs, hbs, hlen, hall⟩ := ih (fun x hx => h x (by simp [hx]))
    refine ⟨b :: bs, ?_, by simp [hlen], ?_⟩
    · simp [hb, hbs]
    · intro c hc
      rcases List.mem_cons.mp hc with h1 | h1
      · exact h1 ▸ hPb
      · exact hall c h1

/-- If `f` succeeds on every element, `mapE` succeeds and the outputs are
pointwise the successes of the inputs. -/
lemma mapE_ok_forall₂ {α β : Type} {f : α → Except PyErr β} :
    ∀ {l : List α}, (∀ a ∈ l, ∃ b, f a = .ok b) →
      ∃ bs, mapE f l = .ok bs ∧ List.Forall₂ (fun a b => f a = .ok b) l bs := by
  intro l
  induction l with
  | nil => exact fun _ => ⟨[], rfl, List.Forall₂.nil⟩
  | cons a l ih =>
    intro h
    obtain ⟨b, hb⟩ := h a (by simp)
    obtain ⟨bs, hbs, hall⟩ := ih (fun x hx => h x (by simp [hx]))
    exact ⟨b :: bs, by simp [hb, hbs], List.Forall₂.cons hb hall⟩

/-- `mapE` computes the plain `map` of `g` when `f` returns `ok (g a)`
everywhere. -/
lemma mapE_eq_map {α β : Type} {f : α → Except PyErr β} {g : α → β} :
    ∀ {l : List α}, (∀ a ∈ l, f a = .ok (g a)) → mapE f l = .ok (l.map g) := by
  intro l
  induction l with
  | nil => exact fun _ => rfl
  | cons a l ih =>
    intro h
    simp [h a (by simp), ih (fun x hx => h x (by simp [hx]))]

/-- `mapE` only looks at `f`'s values on the list. -/
lemma mapE_congr {α β : Type} {f h : α → Except PyErr β} :
    ∀ {l : List α}, (∀ a ∈ l, f a = h a) → mapE f l = mapE h l := by
  intro l
  induction l with
  | nil => exact fun _ => rfl
  | cons a l ih =>
    intro hfh
    simp only [mapE_cons, hfh a (by simp), ih (fun x hx => hfh x (by simp [hx]))]

/-- Two pointwise `f`-indistinguishable lists give the same `mapE` result. -/
lemma mapE_eq_of_forall₂ {α β : Type} {f : α → Except PyErr β} :
    ∀ {l l' : List α}, List.Forall₂ (fun a b => f a = f b) l l' → mapE f l = mapE f l' := by
  intro l l' h
  induction h with
  | nil => rfl
  | cons hab _ ih => simp only [mapE_cons, hab, ih]

/-- `mapE` over a mapped list composes. -/
lemma mapE_map {α β γ : Type} (f : β → Except PyErr γ) (g : α → β) :
    ∀ (l : List α), mapE f (l.map g) = mapE (fun a => f (g a)) l := by
  intro l
  induction l with
  | nil => rfl
  | cons a l ih => simp only [List.map_cons, mapE_cons, ih]

/-- A successful `mapE` preserves length. -/
lemma mapE_length {α β : Type} {f : α → Except PyErr β} :
    ∀ {l : List α} {bs : List β}, mapE f l = .ok bs → bs.length = l.length := by
  intro l
  induction l with
  | nil => intro bs h; cases h; rfl
  | cons a l ih =>
    intro bs h
    simp only [mapE_cons] at h
    cases hfa : f a with
    | error e => rw [hfa] at h; simp at h
    | ok b =>
      rw [hfa] at h
      cases hml : mapE f l with
      | error e => rw [hml] at h; simp at h
      | ok cs =>
        rw [hml] at h
        simp only [okBind] at h
        cases h
        simp [ih hml]

/-- In-bounds `get?` returns the `getD` value. -/
lemma get_opt_eq_getD {α : Type} (d : α) :
    ∀ (l : List α) (j : Nat), j < l.length → l.get? j = some (l.getD j d) := by
  intro l
  induction l with
  | nil => intro j h; simp at h
  | cons a l ih =>
    intro j h
    cases j with
    | zero => rfl
    | succ j => exact ih j (by simpa using h)

/-- `get?` success determines `getD`. -/
lemma getD_of_get_opt {α : Type} {d : α} :
    ∀ {l : List α} {j : Nat} {v : α}, l.get? j = some v → l.getD j d = v := by
  intro l
  induction l with
  | nil => intro j v h; simp at h
  | cons a l ih =>
    intro j v h
    cases j with
    | zero => cases h; rfl
    | succ j => exact ih h

/-- Resolving the activation plus the `geglu` guard puts `dense_layer` in
its `denseList` normal form. -/
lemma dense_layer_eq_denseList (inp out : Nat) (activation : String) (aF : Act)
    (p : ℚ) (bn lf : Bool) (iW : Nat → Nat → ℚ) (iB : Nat → ℚ)
    (hng : activation ≠ "geglu") (haf : _get_activation_fn activation = some aF) :
    dense_layer inp out activation p bn lf iW iB = .ok (denseList inp out aF p bn lf iW iB) := by
  unfold dense_layer denseList
  rw [if_neg hng, haf]

/-- A resolvable activation other than `"geglu"` never resolves to the
gated module. -/
lemma resolved_act_ne_geglu {activation : String} {aF : Act}
    (hng : activation ≠ "geglu") (haf : _get_activation_fn activation = some aF) :
    aF ≠ Act.geglu := by
  unfold _get_activation_fn at haf
  split_ifs at haf
  · cases haf; intro h; cases h
  · cases haf; intro h; cases h
  · cases haf; intro h; cases h

/-- A successful `mapE` maps the `idx`-th input to the `idx`-th output. -/
lemma mapE_get {α β : Type} {f : α → Except PyErr β} :
    ∀ {l : List α} {bs : List β}, mapE f l = .ok bs →
      ∀ idx (h1 : idx < l.length) (h2 : idx < bs.length),
        f (l.get ⟨idx, h1⟩) = .ok (bs.get ⟨idx, h2⟩) := by
  intro l
  induction l with
  | nil => intro bs _ idx h1; simp at h1
  | cons a l ih =>
    intro bs h idx h1 h2
    simp only [mapE_cons] at h
    cases hfa : f a with
    | error e => rw [hfa] at h; simp at h
    | ok b =>
      rw [hfa] at h
      cases hml : mapE f l with
      | error e => rw [hml] at h; simp at h
      | ok cs =>
        rw [hml] at h
        simp only [okBind] at h
        cases h
        cases idx with
        | zero => exact hfa
        | succ idx => exact ih hml idx (by simpa using h1) (by simpa using h2)

/-- In-bounds lookup in a `replicate`. -/
lemma replicate_get_opt {α : Type} (a : α) :
    ∀ (n m : Nat), m < n → (List.replicate n a).get? m = some a := by
  intro n
  induction n with
  | zero => intro m h; simp at h
  | succ n ih =>
    intro m h
    cases m with
    | zero => rfl
    | succ m => exact ih m (by omega)

/-- A float `dropout` argument broadcasts to every position (a falsy `0.0`
becomes `[0.0] * n`, which is the same list). -/
lemma dropoutList_scalar (q : ℚ) (n : Nat) :
    dropoutList (.scalar q) n = List.replicate n q := by
  by_cases hq : q = 0
  · subst hq; simp [dropoutList, DropoutArg.falsy]
  · simp [dropoutList, DropoutArg.falsy, hq]

/-- An absent `dropout` argument defaults to zero at every position. -/
lemma dropoutList_absent (n : Nat) :
    dropoutList .absent n = List.replicate n 0 := rfl

/-- Any dropout stage of a built dense block carries the block's
probability. -/
lemma denseList_dropout_mem {inp out : Nat} {aF : Act} {p q : ℚ} {bn lf : Bool}
    {iW : Nat → Nat → ℚ} {iB : Nat → ℚ}
    (h : Layer.dropoutL q ∈ denseList inp out aF p bn lf iW iB) : q = p := by
  revert h
  unfold denseList
  cases lf <;> cases bn <;> by_cases hp : p = 0 <;> simp [hp]

/-- A nonzero probability puts a dropout stage in the built dense block. -/
lemma denseList_dropout_present {inp out : Nat} {aF : Act} {p : ℚ} {bn lf : Bool}
    {iW : Nat → Nat → ℚ} {iB : Nat → ℚ} (hp : p ≠ 0) :
    Layer.dropoutL p ∈ denseList inp out aF p bn lf iW iB := by
  unfold denseList
  cases lf <;> cases bn <;> simp [hp]

/-- The built dense block contains a batch-norm stage exactly when the flag
was set. -/
lemma denseList_any_isBN (inp out : Nat) (aF : Act) (p : ℚ) (bn lf : Bool)
    (iW : Nat → Nat → ℚ) (iB : Nat → ℚ) :
    (denseList inp out aF p bn lf iW iB).any Layer.isBN = bn := by
  unfold denseList
  cases lf <;> cases bn <;> by_cases hp : p = 0 <;>
    simp [hp, Layer.isBN]

/-- A zero probability leaves no dropout stage in the built dense block. -/
lemma denseList_zero_no_dropout {inp out : Nat} {aF : Act} {bn lf : Bool}
    {iW : Nat → Nat → ℚ} {iB : Nat → ℚ} :
    ∀ x ∈ denseList inp out aF 0 bn lf iW iB, x.isDropout = false := by
  intro x hx
  cases x with
  | dropoutL q =>
      exfalso
      revert hx
      unfold denseList
      cases lf <;> cases bn <;> simp
  | batchNorm1d k => rfl
  | linear a b c d => rfl
  | act a => rfl

/-- Master lemma for `MLP.make` when the normalized dropout list broadcasts
a single probability `q`: the stack is exactly the positional chain of
`denseList` blocks. -/
lemma mlp_make_blocks (d : List Nat) (activation : String) (aF : Act)
    (dropout : DropoutArg) (q : ℚ) (bnn bnl lf : Bool)
    (wI : Nat → Nat → Nat → ℚ) (bI : Nat → Nat → ℚ)
    (hng : activation ≠ "geglu") (haf : _get_activation_fn activation = some aF)
    (hdl : dropoutList dropout d.length = List.replicate d.length q) :
    ∃ blocks, MLP.make d activation dropout bnn bnl lf wI bI = .ok blocks
      ∧ blocks.length = d.length - 1
      ∧ ∀ i (hi : i < blocks.length), blocks.get ⟨i, hi⟩ =
          denseList (d.getD i 0) (d.getD (i + 1) 0) aF q
            (bnn && (decide (i + 1 ≠ d.length - 1) || bnl)) lf (wI i) (bI i) := by
  unfold MLP.make
  simp only [hdl]
  have hok : ∀ i ∈ List.range' 1 (d.length - 1),
      ∃ b, (match (List.replicate d.length q).get? (i - 1) with
        | some p =>
            dense_layer (d.getD (i - 1) 0) (d.getD i 0) activation p
              (bnn && (decide (i ≠ d.length - 1) || bnl)) lf (wI (i - 1)) (bI (i - 1))
        | none => (Except.error PyErr.indexError : Except PyErr (List Layer)))
        = Except.ok b := by
    intro i hi
    have hmem := List.mem_range'_1.mp hi
    rw [replicate_get_opt q d.length (i - 1) (by omega)]
    exact ⟨_, dense_layer_eq_denseList _ _ activation aF q _ lf _ _ hng haf⟩
  obtain ⟨blocks, hmk, hfall⟩ := mapE_ok_forall₂ hok
  refine ⟨blocks, hmk, ?_, ?_⟩
  · have := hfall.length_eq
    simp only [List.length_range'] at this
    omega
  · intro i hi
    have hlen : blocks.length = d.length - 1 := by
      have := hfall.length_eq
      simp only [List.length_range'] at this
      omega
    have h1 : i < (List.range' 1 (d.length - 1)).length := by
      simp only [List.length_range']; omega
    have hval := mapE_get hmk i h1 hi
    have hri : (List.range' 1 (d.length - 1)).get ⟨i, h1⟩ = 1 + i := by
      simp [List.get_eq_getElem, List.getElem_range']
    rw [hri] at hval
    rw [replicate_get_opt q d.length (1 + i - 1) (by omega)] at hval
    simp only [okBind] at hval
    rw [dense_layer_eq_denseList _ _ activation aF q _ lf _ _ hng haf] at hval
    have h2 : (1 : Nat) + i - 1 = i := by omega
    rw [h2] at hval
    have h3 : (1 : Nat) + i = i + 1 := by omega
    rw [h3] at hval
    exact (Except.ok.inj hval).symm

/- ### C3: ordering of the stages of a dense block -/

/-- C3 (confirmed).  For every valid dense-block configuration (the
activation resolves and is not the gated `"geglu"`): with `linear_first`
the built block is `[linear, activation] ++ [batch-norm on the output
width]? ++ [dropout]?`; without it the block is `[batch-norm on the input
width]? ++ [dropout]? ++ [linear, activation]`. -/
theorem dense_layer_ordering (inp out : Nat) (activation : String) (aF : Act)
    (p : ℚ) (bn lf : Bool) (iW : Nat → Nat → ℚ) (iB : Nat → ℚ)
    (hng : activation ≠ "geglu") (haf : _get_activation_fn activation = some aF) :
    dense_layer inp out activation p bn lf iW iB = .ok
      (if lf then
        [Layer.linear inp out (mkMatrix out inp iW) (if bn then none else some (mkVec out iB)),
         Layer.act aF]
        ++ (if bn then [Layer.batchNorm1d out] else [])
        ++ (if p ≠ 0 then [Layer.dropoutL p] else [])
      else
        (if bn then [Layer.batchNorm1d inp] else [])
        ++ (if p ≠ 0 then [Layer.dropoutL p] else [])
        ++ [Layer.linear inp out (mkMatrix out inp iW) (if bn then none else some (mkVec out iB)),
            Layer.act aF]) := by
  rw [dense_layer_eq_denseList inp out activation aF p bn lf iW iB hng haf]
  unfold denseList
  cases lf <;> cases bn <;> by_cases hp : p = 0 <;> simp [hp]

/-- Witness for C3 at a concrete configuration. -/
theorem dense_layer_ordering_witness :
    dense_layer 2 3 "relu" 1 true true (fun _ _ => 0) (fun _ => 0) =
      .ok [Layer.linear 2 3 [[0, 0], [0, 0], [0, 0]] none, Layer.act Act.relu,
           Layer.batchNorm1d 3, Layer.dropoutL 1] :=
  (dense_layer_ordering 2 3 "relu" Act.relu 1 true true (fun _ _ => 0) (fun _ => 0)
    (by decide) rfl).trans (by with_unfolding_all rfl)

/- ### C4: `p = 0` omits the dropout stage entirely -/

/-- C4 (confirmed).  For every valid dense-block configuration with dropout
probability exactly zero, no layer of the built block is a dropout stage. -/
theorem dense_layer_p_zero_no_dropout (inp out : Nat) (activation : String) (aF : Act)
    (bn lf : Bool) (iW : Nat → Nat → ℚ) (iB : Nat → ℚ)
    (hng : activation ≠ "geglu") (haf : _get_activation_fn activation = some aF) :
    ∀ L, dense_layer inp out activation 0 bn lf iW iB = .ok L →
      ∀ x ∈ L, x.isDropout = false := by
  intro L hL x hx
  rw [dense_layer_eq_denseList inp out activation aF 0 bn lf iW iB hng haf] at hL
  cases hL
  cases x with
  | dropoutL q =>
      exfalso
      revert hx
      unfold denseList
      cases lf <;> cases bn <;> simp
  | batchNorm1d k => rfl
  | linear a b c d => rfl
  | act a => rfl

/-- Witness for C4 at a concrete configuration. -/
theorem dense_layer_p_zero_no_dropout_witness :
    Layer.isDropout (Layer.act Act.relu) = false :=
  dense_layer_p_zero_no_dropout 2 3 "relu" Act.relu false false (fun _ _ => 0) (fun _ => 0)
    (by decide) rfl
    [Layer.linear 2 3 [[0, 0], [0, 0], [0, 0]] (some [0, 0, 0]), Layer.act Act.relu]
    (by with_unfolding_all rfl) (Layer.act Act.relu) (by decide)

/- ### C5: when is the linear bias omitted? -/

/-- C5 counterexample.  With `linear_first` and batch-norm enabled the built
ordering has no batch-norm layer immediately adjacent to the linear layer
(the activation sits between them), yet the linear bias is omitted — so
"bias omitted exactly when normalization is immediately adjacent" is false. -/
theorem dense_layer_bias_adjacency_cex :
    dense_layer 2 3 "relu" (1/2) true true (fun _ _ => 0) (fun _ => 0) = .ok cex5
    ∧ bnAdjacentLinear cex5 = false
    ∧ cex5.any Layer.isBN = true
    ∧ Layer.linear 2 3 [[0, 0], [0, 0], [0, 0]] none ∈ cex5 :=
  ⟨by with_unfolding_all rfl, by decide, by decide, by decide⟩

/-- C5 as amended.  For every valid dense-block configuration, the linear
stage's additive bias is omitted exactly when batch-norm is enabled,
regardless of where the normalization stage sits in the built ordering. -/
theorem dense_layer_bias_iff_bn (inp out : Nat) (activation : String) (aF : Act)
    (p : ℚ) (bn lf : Bool) (iW : Nat → Nat → ℚ) (iB : Nat → ℚ)
    (hng : activation ≠ "geglu") (haf : _get_activation_fn activation = some aF) :
    ∀ L, dense_layer inp out activation p bn lf iW iB = .ok L →
      ∀ i o W b, Layer.linear i o W b ∈ L → (b = none ↔ bn = true) := by
  intro L hL i o W b hmem
  rw [dense_layer_eq_denseList inp out activation aF p bn lf iW iB hng haf] at hL
  cases hL
  revert hmem
  unfold denseList
  cases lf <;> cases bn <;> by_cases hp : p = 0 <;> simp [hp] <;>
    intros <;> subst_vars <;> simp

/-- Witness for the amended C5 at a concrete configuration. -/
theorem dense_layer_bias_iff_bn_witness :
    ((none : Option (List ℚ)) = none ↔ true = true) :=
  dense_layer_bias_iff_bn 2 3 "relu" Act.relu (1/2) true true (fun _ _ => 0) (fun _ => 0)
    (by decide) rfl cex5 (by with_unfolding_all rfl)
    2 3 [[0, 0], [0, 0], [0, 0]] none (by decide)

/- ### C7: the MLP stack -/

/-- C7 (confirmed).  For a hidden-dimension schedule of length `N` and a
valid activation, the stack has exactly `N - 1` chained dense blocks.  A
scalar dropout broadcasts the same probability to every block (every
dropout stage carries it, and when it is nonzero every block has such a
stage); an absent dropout yields zero dropout for every block (no block
contains any dropout stage).  With batch-norm enabled, block `i` contains a
batch-norm stage iff it is not the last block or the separate
`batchnorm_last` flag is set. -/
theorem mlp_stack_blocks (d : List Nat) (activation : String) (aF : Act) (q : ℚ)
    (bnn bnl lf : Bool) (wI : Nat → Nat → Nat → ℚ) (bI : Nat → Nat → ℚ)
    (hng : activation ≠ "geglu") (haf : _get_activation_fn activation = some aF) :
    (∃ blocks, MLP.make d activation (.scalar q) bnn bnl lf wI bI = .ok blocks
      ∧ blocks.length = d.length - 1
      ∧ (∀ b ∈ blocks, ∀ p, Layer.dropoutL p ∈ b → p = q)
      ∧ (q ≠ 0 → ∀ b ∈ blocks, Layer.dropoutL q ∈ b)
      ∧ (bnn = true → ∀ i (hi : i < blocks.length),
          ((blocks.get ⟨i, hi⟩).any Layer.isBN = true ↔ (i ≠ d.length - 2 ∨ bnl = true))))
    ∧ (∃ blocks0, MLP.make d activation .absent bnn bnl lf wI bI = .ok blocks0
      ∧ blocks0.length = d.length - 1
      ∧ ∀ b ∈ blocks0, ∀ x ∈ b, x.isDropout = false) := by
  constructor
  · obtain ⟨blocks, hmk, hlen, hget⟩ :=
      mlp_make_blocks d activation aF (.scalar q) q bnn bnl lf wI bI hng haf
        (dropoutList_scalar q d.length)
    refine ⟨blocks, hmk, hlen, ?_, ?_, ?_⟩
    · intro b hb p hp
      obtain ⟨⟨i, hi⟩, rfl⟩ := List.mem_iff_get.mp hb
      rw [hget i hi] at hp
      exact denseList_dropout_mem hp
    · intro hq b hb
      obtain ⟨⟨i, hi⟩, rfl⟩ := List.mem_iff_get.mp hb
      rw [hget i hi]
      exact denseList_dropout_present hq
    · intro hbnn i hi
      have hi2 : i < d.length - 1 := by omega
      rw [hget i hi, denseList_any_isBN]
      subst hbnn
      simp only [Bool.true_and, Bool.or_eq_true, decide_eq_true_iff]
      constructor
      · rintro (h | h)
        · left; omega
        · right; exact h
      · rintro (h | h)
        · left; omega
        · right; exact h
  · obtain ⟨blocks0, hmk, hlen, hget⟩ :=
      mlp_make_blocks d activation aF .absent 0 bnn bnl lf wI bI hng haf
        (dropoutList_absent d.length)
    refine ⟨blocks0, hmk, hlen, ?_⟩
    intro b hb x hx
    obtain ⟨⟨i, hi⟩, rfl⟩ := List.mem_iff_get.mp hb
    rw [hget i hi] at hx
    exact denseList_zero_no_dropout x hx

/-- Witness for C7 on the schedule `[3, 2, 1]` with dropout `1/2` and
batch-norm on all but the last block. -/
theorem mlp_stack_blocks_witness :
    (∃ blocks, MLP.make [3, 2, 1] "relu" (.scalar (1/2)) true false false
        (fun _ _ _ => 0) (fun _ _ => 0) = .ok blocks
      ∧ blocks.length = 2
      ∧ (∀ b ∈ blocks, ∀ p, Layer.dropoutL p ∈ b → p = 1/2)
      ∧ ((1/2 : ℚ) ≠ 0 → ∀ b ∈ blocks, Layer.dropoutL (1/2) ∈ b)
      ∧ (true = true → ∀ i (hi : i < blocks.length),
          ((blocks.get ⟨i, hi⟩).any Layer.isBN = true ↔ (i ≠ 1 ∨ false = true))))
    ∧ (∃ blocks0, MLP.make [3, 2, 1] "relu" .absent true false false
        (fun _ _ _ => 0) (fun _ _ => 0) = .ok blocks0
      ∧ blocks0.length = 2
      ∧ ∀ b ∈ blocks0, ∀ x ∈ b, x.isDropout = false) :=
  mlp_stack_blocks [3, 2, 1] "relu" Act.relu (1/2) true false false
    (fun _ _ _ => 0) (fun _ _ => 0) (by decide) rfl

/- ### C6: gated-GELU widths and failure behavior -/

/-- C6 counterexample.  On the odd width 3 the gated module raises nothing
at all: the two chunks (sizes 2 and 1) broadcast and the call returns a
width-2 tensor; on the odd width 5 it raises a shape-mismatch
`RuntimeError`, not a construction-time configuration error. -/
theorem geglu_odd_width_cex :
    GEGLU.forward id ([1, 2, 3] : List ℚ) = .ok [3, 6]
    ∧ GEGLU.forward id ([1, 2, 3, 4, 5] : List ℚ) = .error .runtimeError :=
  ⟨by with_unfolding_all rfl, by with_unfolding_all rfl⟩

/-- C6 as amended.  For every even input width `2k` (width 0 included) the
gated-GELU splits the input into two equal halves and returns the first
half times the Gaussian-error-linear activation of the second, so the
output width is exactly `k`.  For an odd input width no
`ConfigurationError` is raised: width 1 fails to unpack the single chunk
with a `ValueError`, width 3 silently broadcasts to a width-2 output, and
odd widths `≥ 5` fail with a shape-mismatch `RuntimeError`. -/
theorem geglu_width_behavior :
    (∀ (g : ℚ → ℚ) (x : List ℚ) (k : Nat), x.length = 2 * k →
      GEGLU.forward g x = .ok (List.zipWith (fun a b => a * g b) (x.take k) (x.drop k))
      ∧ (List.zipWith (fun a b => a * g b) (x.take k) (x.drop k)).length = k)
    ∧ (∀ (g : ℚ → ℚ) (x : List ℚ), x.length = 1 →
      GEGLU.forward g x = .error .valueError)
    ∧ (∀ (g : ℚ → ℚ) (x : List ℚ), x.length = 3 →
      GEGLU.forward g x = .ok ((x.take 2).map (· * g (x.getD 2 0))))
    ∧ (∀ (g : ℚ → ℚ) (x : List ℚ) (k : Nat), x.length = 2 * k + 5 →
      GEGLU.forward g x = .error .runtimeError) := by
  refine ⟨?_, ?_, ?_, ?_⟩
  · intro g x k hx
    have hcs : (x.length + 1) / 2 = k := by omega
    have htake : (x.take k).length = k := by rw [List.length_take]; omega
    have hdrop : (x.drop k).length = k := by rw [List.length_drop]; omega
    constructor
    · unfold GEGLU.forward
      rw [if_neg (by omega), hcs]
      unfold bmul
      rw [if_pos (by simp; omega)]
      rw [List.zipWith_map_right]
    · rw [List.length_zipWith, htake, hdrop]; exact min_self k
  · intro g x hx
    unfold GEGLU.forward
    rw [if_pos hx]
  · intro g x hx
    obtain ⟨a, b, c, rfl⟩ := List.length_eq_three.mp hx
    unfold GEGLU.forward bmul
    norm_num
  · intro g x k hx
    unfold GEGLU.forward
    have hcs : (x.length + 1) / 2 = k + 3 := by omega
    rw [if_neg (by omega), hcs]
    unfold bmul
    have htake : (x.take (k + 3)).length = k + 3 := by rw [List.length_take]; omega
    have hdrop : ((x.drop (k + 3)).map g).length = k + 2 := by
      rw [List.length_map, List.length_drop]; omega
    rw [if_neg (by rw [htake, hdrop]; omega),
        if_neg (by rw [hdrop]; omega),
        if_neg (by rw [htake]; omega)]

/- ### C10: only referenced columns influence the forward pass -/

/-- Congruence of `>>=` for `Except` from congruence of both parts. -/
lemma bindCongr {α β : Type} {a b : Except PyErr α} {f k : α → Except PyErr β}
    (hab : a = b) (hfk : ∀ x, f x = k x) : (a >>= f) = (b >>= k) := by
  subst hab
  cases a with
  | error e => rfl
  | ok v => simp only [okBind]; exact hfk v

/-- A successful dict access is a successful association lookup. -/
lemma dget_ok {α : Type} {l : List (String × α)} {k : String} {v : α}
    (h : dget l k = .ok v) : lookupStr l k = some v := by
  unfold dget at h
  cases h2 : lookupStr l k with
  | none => rw [h2] at h; cases h
  | some w => rw [h2] at h; cases h; rfl

/-- The Column Index position of any embedding-spec column is a referenced
position. -/
lemma refIdx_embed_mem (m : TabMlpModel) {specs : List (String × Nat × Nat)}
    {s : String × Nat × Nat} {idx : Nat} (hemb : m.embed_input = some specs)
    (hs : s ∈ specs) (hidx : lookupStr m.column_idx s.1 = some idx) :
    idx ∈ TabMlp.refIdx m := by
  unfold TabMlp.refIdx
  rw [hemb]
  exact List.mem_append_left _ (List.mem_filterMap.mpr ⟨s, hs, hidx⟩)

/-- Every continuous column position is a referenced position. -/
lemma refIdx_cont_mem (m : TabMlpModel) {cols : List String} {i : Nat}
    (hcont : m.continuous_cols = some cols) (hi : i ∈ m.cont_idx) :
    i ∈ TabMlp.refIdx m := by
  unfold TabMlp.refIdx
  rw [hcont]
  exact List.mem_append_right _ hi

/-- `X[:, idx]` only reads position `idx` of each row. -/
lemma colGather_congr {X Y : List (List ℚ)} (idx : Nat)
    (h : List.Forall₂ (fun r rr => r.get? idx = rr.get? idx) X Y) :
    colGather X idx = colGather Y idx := by
  apply mapE_eq_of_forall₂
  exact h.imp (fun a b hag => by simp only [hag])

/-- The embedding branch of `forward` reads only the spec column's
position. -/
lemma embedColumnForward_congr (m : TabMlpModel) (s : String × Nat × Nat)
    {specs : List (String × Nat × Nat)} (hemb : m.embed_input = some specs)
    (hs : s ∈ specs) {X Y : List (List ℚ)}
    (h : List.Forall₂ (rowAgree m) X Y) :
    TabMlp.embedColumnForward m s X = TabMlp.embedColumnForward m s Y := by
  unfold TabMlp.embedColumnForward
  apply bindCongr rfl
  intro table
  cases hidx : dget m.column_idx s.1 with
  | error e => rfl
  | ok idx =>
      simp only [okBind]
      apply bindCongr
      · exact colGather_congr idx
          (h.imp (fun a b hag => hag idx (refIdx_embed_mem m hemb hs (dget_ok hidx))))
      · intro col; rfl

/-- The continuous-column gather of `forward` reads only the `cont_idx`
positions of each row. -/
lemma contRows_congr (m : TabMlpModel) {X Y : List (List ℚ)}
    (h : List.Forall₂ (rowAgree m) X Y) {cols : List String}
    (hcont : m.continuous_cols = some cols) :
    mapE (fun row =>
      mapE (fun i => match row.get? i with
        | some v => Except.ok v
        | none => Except.error PyErr.indexError) m.cont_idx) X =
    mapE (fun row =>
      mapE (fun i => match row.get? i with
        | some v => Except.ok v
        | none => Except.error PyErr.indexError) m.cont_idx) Y := by
  apply mapE_eq_of_forall₂
  refine h.imp ?_
  intro r rr hag
  exact mapE_congr (fun i hi => by rw [hag i (refIdx_cont_mem m hcont hi)])

/-- C10 (confirmed).  With fixed weights in inference mode, two batches
that agree on every column position referenced by the embedding specs or
the continuous column list produce identical forward outputs: columns not
named in either spec never influence the result. -/
theorem forward_referenced_columns_only (m : TabMlpModel) (g bnm : ℚ → ℚ)
    (invStd : List ℚ → ℚ) (X Y : List (List ℚ))
    (h : List.Forall₂ (rowAgree m) X Y) :
    TabMlp.forward m g bnm invStd X = TabMlp.forward m g bnm invStd Y := by
  have hcomp : TabMlp.composeFeatures m bnm invStd X =
      TabMlp.composeFeatures m bnm invStd Y := by
    unfold TabMlp.composeFeatures
    cases hemb : m.embed_input with
    | none =>
        dsimp only
        cases hcont : m.continuous_cols with
        | none => rfl
        | some cols => rw [contRows_congr m h hcont]
    | some specs =>
        dsimp only
        have hmap : mapE (fun s => TabMlp.embedColumnForward m s X) specs =
            mapE (fun s => TabMlp.embedColumnForward m s Y) specs :=
          mapE_congr (fun s hs => embedColumnForward_congr m s hemb hs h)
        rw [hmap]
        apply bindCongr rfl
        intro embed
        apply bindCongr rfl
        intro x
        dsimp only [okBind]
        cases hcont : m.continuous_cols with
        | none => rfl
        | some cols => rw [contRows_congr m h hcont]
  unfold TabMlp.forward
  rw [hcomp]

/-- Witness for C10: two one-row batches for the `cfg1` model that agree on
the single referenced column 0 but differ in an unreferenced trailing
column produce the same output. -/
theorem forward_referenced_columns_only_witness :
    TabMlp.forward m1 id id (fun _ => 0) [[0, 7]] =
      TabMlp.forward m1 id id (fun _ => 0) [[0, 9]] :=
  forward_referenced_columns_only m1 id id (fun _ => 0) [[0, 7]] [[0, 9]]
    (by
      refine List.Forall₂.cons ?_ List.Forall₂.nil
      intro i hi
      have hr : TabMlp.refIdx m1 = [0] := by with_unfolding_all rfl
      rw [hr, List.mem_singleton] at hi
      subst hi
      rfl)

/- ### C1: embedding lookup uses the raw id directly (no `+1` at lookup) -/

/-- C1 counterexample.  In the `cfg1` model the table for column `a` is
`[[0], [5], [10]]` (row 0 the zeroed padding row, row 1 sampled as `[5]`).
A forward pass on the single row `[0]` returns `[[0]]` — the raw id 0 read
padding row 0 — whereas the claimed `+1` offset would have produced `[[5]]`
(row 1). -/
theorem tabmlp_lookup_offset_cex :
    TabMlp.make cfg1 eI1 zW zB = .ok m1
    ∧ m1.embed_layers = [("emb_layer_" ++ "a", [[0], [5], [10]])]
    ∧ TabMlp.forward m1 id id (fun _ => 0) [[0]] = .ok [[0]]
    ∧ ([[(0 : ℚ)]] : List (List ℚ)) ≠ [[5]] :=
  ⟨by with_unfolding_all rfl, rfl, by with_unfolding_all rfl, by with_unfolding_all decide⟩

/-- C1 as amended.  The forward pass looks up the raw category id at the
column's Column Index position and indexes the embedding table with it
directly — no `+1` is added at lookup time.  The table built by the
constructor has `cardinality + 1` rows whose row 0 is the zero-initialized
padding row, so a raw id 0 reads that untrained padding row 0 (not row 1);
the `+1` offset is expected to have been applied upstream. -/
theorem tabmlp_lookup_direct_amended :
    (∀ (m : TabMlpModel) (s : String × Nat × Nat) (X : List (List ℚ))
        (table : List (List ℚ)) (idx : Nat),
      dget m.embed_layers ("emb_layer_" ++ s.1) = .ok table →
      dget m.column_idx s.1 = .ok idx →
      (∀ row ∈ X, ∃ v, row.get? idx = some v ∧ 0 ≤ toLong v ∧ (toLong v).toNat < table.length) →
      TabMlp.embedColumnForward m s X =
        .ok (X.map (fun row => table.getD (toLong (row.getD idx 0)).toNat [])))
    ∧ (∀ (rows dim : Nat) (f : Nat → Nat → ℚ), 1 ≤ rows →
        (mkEmbedding rows dim f).getD 0 [] = List.replicate dim 0
        ∧ embLookup (mkEmbedding rows dim f) 0 = .ok (List.replicate dim 0)) := by
  constructor
  · intro m s X table idx ht hidx hX
    unfold TabMlp.embedColumnForward
    rw [ht]
    simp only [okBind]
    rw [hidx]
    simp only [okBind]
    have hcol : colGather X idx = .ok (X.map (fun row => row.getD idx 0)) := by
      apply mapE_eq_map
      intro row hrow
      obtain ⟨v, hv, _, _⟩ := hX row hrow
      have hv2 := hv
      rw [List.get?_eq_getElem?] at hv2
      simp [hv2, getD_of_get_opt hv]
    rw [hcol]
    simp only [okBind]
    rw [mapE_map]
    apply mapE_eq_map
    intro row hrow
    obtain ⟨v, hv, h0, hlt⟩ := hX row hrow
    rw [getD_of_get_opt hv]
    unfold embLookup
    rw [if_pos ⟨h0, hlt⟩]
  · intro rows dim f h1
    obtain ⟨r, rfl⟩ : ∃ r, rows = r + 1 := ⟨rows - 1, by omega⟩
    have hhead : (mkEmbedding (r + 1) dim f).getD 0 [] = List.replicate dim 0 := by
      unfold mkEmbedding
      rw [List.range_succ_eq_map]
      simp
    refine ⟨hhead, ?_⟩
    have hlen : (mkEmbedding (r + 1) dim f).length = r + 1 := by
      unfold mkEmbedding
      simp
    unfold embLookup
    rw [if_pos ⟨le_refl 0, by rw [hlen]; omega⟩]
    rw [show ((0 : Int)).toNat = 0 from rfl, hhead]

/-- Witness for the amended C1: on the `cfg1` model, a raw id 1 reads table
row 1 directly, and the padding row of a fresh 3-row table is zero. -/
theorem tabmlp_lookup_direct_amended_witness :
    TabMlp.embedColumnForward m1 ("a", 2, 1) [[1]] = .ok [[5]]
    ∧ embLookup (mkEmbedding 3 1 (eI1 "a")) 0 = .ok (List.replicate 1 0) :=
  ⟨(tabmlp_lookup_direct_amended.1 m1 ("a", 2, 1) [[1]] [[0], [5], [10]] 0
      (by with_unfolding_all rfl) rfl
      (by
        intro row hr
        rw [List.mem_singleton] at hr
        subst hr
        exact ⟨1, rfl, by with_unfolding_all decide, by with_unfolding_all decide⟩)).trans
    (by with_unfolding_all rfl),
   (tabmlp_lookup_direct_amended.2 3 1 (eI1 "a") (by decide)).2⟩

/- ### C2: both feature groups absent -/

/-- `TabMlp.__init__` on `cfg2` succeeds and builds the `m2` model. -/
lemma make_cfg2_eq (eI : String → Nat → Nat → ℚ) (wI : Nat → Nat → Nat → ℚ)
    (bI : Nat → Nat → ℚ) : TabMlp.make cfg2 eI wI bI = .ok (m2 wI bI) := by
  with_unfolding_all rfl

/-- C2 counterexample.  Constructing a `TabMlp` with both the embedding
spec list and the continuous column list absent does **not** fail: there is
no zero-width check and construction returns normally. -/
theorem tabmlp_no_zero_width_check_cex :
    (TabMlp.make cfg2 zE zW zB).isOk = true := by
  rw [make_cfg2_eq zE zW zB]
  rfl

/-- C2 as amended.  With both feature groups absent, construction succeeds
(no error of any kind is raised; the MLP is built with input width 0), and
the failure only surfaces in the forward pass, which raises an
`UnboundLocalError` because no feature block is ever assigned to `x`. -/
theorem tabmlp_zero_width_amended (eI : String → Nat → Nat → ℚ)
    (wI : Nat → Nat → Nat → ℚ) (bI : Nat → Nat → ℚ) (g bnm : ℚ → ℚ)
    (invStd : List ℚ → ℚ) (X : List (List ℚ)) :
    (TabMlp.make cfg2 eI wI bI).isOk = true
    ∧ ∀ m, TabMlp.make cfg2 eI wI bI = .ok m →
        TabMlp.forward m g bnm invStd X = .error .unboundLocalError := by
  constructor
  · rw [make_cfg2_eq eI wI bI]; rfl
  · intro m hm
    rw [make_cfg2_eq eI wI bI] at hm
    cases hm
    rfl

/-- Witness for the amended C2. -/
theorem tabmlp_zero_width_amended_witness :
    TabMlp.forward (m2 zW zB) id id (fun _ => 0) [[1]] = .error .unboundLocalError :=
  (tabmlp_zero_width_amended zE zW zB id id (fun _ => 0) [[1]]).2 (m2 zW zB)
    (make_cfg2_eq zE zW zB)

/-- Witness for the amended C6 at widths 4, 0, 1 and 7. -/
theorem geglu_width_behavior_witness :
    GEGLU.forward id ([1, 2, 3, 4] : List ℚ) =
      .ok (List.zipWith (fun a b => a * id b) (List.take 2 ([1, 2, 3, 4] : List ℚ))
        (List.drop 2 ([1, 2, 3, 4] : List ℚ)))
    ∧ GEGLU.forward id ([] : List ℚ) = .ok []
    ∧ GEGLU.forward id ([9] : List ℚ) = .error .valueError
    ∧ GEGLU.forward id ([1, 2, 3, 4, 5, 6, 7] : List ℚ) = .error .runtimeError :=
  ⟨(geglu_width_behavior.1 id [1, 2, 3, 4] 2 (by decide)).1,
   (geglu_width_behavior.1 id [] 0 rfl).1,
   geglu_width_behavior.2.1 id [9] rfl,
   geglu_width_behavior.2.2.2 id [1, 2, 3, 4, 5, 6, 7] 1 (by decide)⟩

/- ### Shape lemmas for the feature composition (C8, C9) -/

/-- First-match lookup in a keyed `map` finds the value of the (unique)
matching element. -/
lemma lookupStr_map_nodup {α β : Type} (key : α → String) (val : α → β) :
    ∀ (l : List α) (s : α), s ∈ l → (l.map key).Nodup →
      lookupStr (l.map (fun t => (key t, val t))) (key s) = some (val s) := by
  intro l
  induction l with
  | nil => intro s hs; cases hs
  | cons t ts ih =>
    intro s hs hnd
    rw [List.map_cons, List.nodup_cons] at hnd
    rcases List.mem_cons.mp hs with rfl | hmem
    · simp [lookupStr]
    · have hne : (key t == key s) = false := by
        apply beq_false_of_ne
        intro he
        exact hnd.1 (he ▸ List.mem_map_of_mem key hmem)
      have ihr := ih s hmem hnd.2
      unfold lookupStr at ihr ⊢
      rw [List.map_cons, List.find?_cons]
      simp only [hne]
      exact ihr

/-- An in-bounds `getD` value is a member. -/
lemma getD_mem_of_lt {α : Type} (d : α) :
    ∀ (l : List α) (n : Nat), n < l.length → l.getD n d ∈ l := by
  intro l
  induction l with
  | nil => intro n h; simp at h
  | cons a l ih =>
    intro n h
    cases n with
    | zero => exact List.mem_cons_self a l
    | succ n => exact List.mem_cons_of_mem a (ih n (by simpa using h))

/-- A fresh embedding table has one row per index. -/
lemma mkEmbedding_len (rows dim : Nat) (f : Nat → Nat → ℚ) :
    (mkEmbedding rows dim f).length = rows := by
  unfold mkEmbedding
  simp

/-- Every row of a fresh embedding table has the embedding dimension. -/
lemma mkEmbedding_rect (rows dim : Nat) (f : Nat → Nat → ℚ) :
    ∀ r ∈ mkEmbedding rows dim f, r.length = dim := by
  intro r hr
  unfold mkEmbedding at hr
  obtain ⟨i, _, rfl⟩ := List.mem_map.mp hr
  by_cases hi : i = 0 <;> simp [hi]

/-- A successful in-range lookup returns a table row. -/
lemma embLookup_shape {table : List (List ℚ)} {dim : Nat}
    (htab : ∀ r ∈ table, r.length = dim) {v : Int} (h0 : 0 ≤ v)
    (hlt : v.toNat < table.length) :
    ∃ r, embLookup table v = .ok r ∧ r.length = dim := by
  refine ⟨table.getD v.toNat [], ?_, ?_⟩
  · unfold embLookup
    rw [if_pos ⟨h0, hlt⟩]
  · exact htab _ (getD_mem_of_lt [] table v.toNat hlt)

/-- Shape of one embedding column of `forward`: one row per batch row, each
of the table's embedding dimension. -/
lemma embedColumnForward_shape (m : TabMlpModel) (s : String × Nat × Nat)
    (X : List (List ℚ)) (table : List (List ℚ)) (idx dim : Nat)
    (ht : dget m.embed_layers ("emb_layer_" ++ s.1) = .ok table)
    (hidx : dget m.column_idx s.1 = .ok idx)
    (htab : ∀ r ∈ table, r.length = dim)
    (hX : ∀ row ∈ X, ∃ v, row.get? idx = some v ∧ 0 ≤ toLong v ∧
      (toLong v).toNat < table.length) :
    ∃ c, TabMlp.embedColumnForward m s X = .ok c ∧ c.length = X.length
      ∧ ∀ r ∈ c, r.length = dim := by
  unfold TabMlp.embedColumnForward
  rw [ht]
  simp only [okBind]
  rw [hidx]
  simp only [okBind]
  obtain ⟨col, hcol, hclen, hcall⟩ :=
    mapE_ok_of_forall (P := fun v => 0 ≤ toLong v ∧ (toLong v).toNat < table.length)
      (l := X) (f := fun row => match row.get? idx with
        | some v => Except.ok v
        | none => Except.error PyErr.indexError)
      (by
        intro row hrow
        obtain ⟨v, hv, h0, hlt⟩ := hX row hrow
        rw [List.get?_eq_getElem?] at hv
        exact ⟨v, by simp [hv], h0, hlt⟩)
  unfold colGather
  rw [hcol]
  simp only [okBind]
  obtain ⟨c, hc, hlen2, hall2⟩ :=
    mapE_ok_of_forall (P := fun r : List ℚ => r.length = dim) (l := col)
      (f := fun v => embLookup table (toLong v))
      (by
        intro v hv
        obtain ⟨h0, hlt⟩ := hcall v hv
        exact embLookup_shape htab h0 hlt)
  exact ⟨c, hc, by rw [hlen2, hclen], hall2⟩

/-- `Forall₂` strengthening that may use membership of the left element. -/
lemma forall₂_mem_imp {α β : Type} {R S : α → β → Prop} :
    ∀ {l1 : List α} {l2 : List β}, List.Forall₂ R l1 l2 →
      (∀ a ∈ l1, ∀ b, R a b → S a b) → List.Forall₂ S l1 l2 := by
  intro l1 l2 h
  induction h with
  | nil => intro; exact List.Forall₂.nil
  | cons hab hrest ih =>
    intro hmem
    exact List.Forall₂.cons (hmem _ (by simp) _ hab)
      (ih (fun a ha b hr => hmem a (by simp [ha]) b hr))

/-- Rowwise concatenation of two equal-height rectangular blocks. -/
lemma zipWith_append_shape {w1 w2 : Nat} :
    ∀ {a b : List (List ℚ)}, a.length = b.length →
      (∀ r ∈ a, r.length = w1) → (∀ r ∈ b, r.length = w2) →
      (List.zipWith (· ++ ·) a b).length = a.length
        ∧ ∀ r ∈ List.zipWith (· ++ ·) a b, r.length = w1 + w2 := by
  intro a
  induction a with
  | nil => intro b _ _ _; simp
  | cons x xs ih =>
    intro b hlen hx hb
    cases b with
    | nil => simp at hlen
    | cons y ys =>
        obtain ⟨ihlen, ihall⟩ := ih (by simpa using hlen)
          (fun r hr => hx r (by simp [hr])) (fun r hr => hb r (by simp [hr]))
        constructor
        · simpa using ihlen
        · intro r hr
          rcases List.mem_cons.mp hr with rfl | hr2
          · rw [List.length_append, hx x (by simp), hb y (by simp)]
          · exact ihall r hr2

/-- Folding `cat2` over rectangular blocks of equal height accumulates the
widths. -/
lemma foldE_cat2_shape :
    ∀ (ts : List (List (List ℚ))) (ws : List Nat) (t : List (List ℚ)) (B w : Nat),
      t.length = B → (∀ r ∈ t, r.length = w) →
      List.Forall₂ (fun tt ww => tt.length = B ∧ ∀ r ∈ tt, r.length = ww) ts ws →
      ∃ x, foldE cat2 t ts = .ok x ∧ x.length = B ∧ ∀ r ∈ x, r.length = w + ws.sum := by
  intro ts
  induction ts with
  | nil =>
    intro ws t B w h1 h2 hf
    cases hf
    exact ⟨t, rfl, h1, by simpa using h2⟩
  | cons t2 ts ih =>
    intro ws t B w h1 h2 hf
    cases hf with
    | cons hw hf2 =>
      obtain ⟨h2len, h2all⟩ := hw
      have hcat : cat2 t t2 = .ok (List.zipWith (· ++ ·) t t2) := by
        unfold cat2
        rw [if_pos (by omega)]
      obtain ⟨hzlen, hzall⟩ := zipWith_append_shape (by omega) h2 h2all
      rw [foldE_cons, hcat]
      simp only [okBind]
      obtain ⟨x, hx, hxlen, hxall⟩ := ih _ _ B _ (by omega) hzall hf2
      refine ⟨x, hx, hxlen, ?_⟩
      intro r hr
      rw [hxall r hr, List.sum_cons]
      omega

/-- `torch.cat` over a non-empty list of rectangular blocks of equal height:
the widths add up. -/
lemma catCols_shape (ts : List (List (List ℚ))) (ws : List Nat) (B : Nat)
    (hne : ts ≠ [])
    (hf : List.Forall₂ (fun tt ww => tt.length = B ∧ ∀ r ∈ tt, r.length = ww) ts ws) :
    ∃ x, catCols ts = .ok x ∧ x.length = B ∧ ∀ r ∈ x, r.length = ws.sum := by
  cases ts with
  | nil => exact absurd rfl hne
  | cons t ts2 =>
    cases hf with
    | cons hw hf2 =>
      obtain ⟨h1, h2⟩ := hw
      unfold catCols
      obtain ⟨x, hx, hxlen, hxall⟩ := foldE_cat2_shape ts2 _ t B _ h1 h2 hf2
      refine ⟨x, hx, hxlen, ?_⟩
      intro r hr
      rw [hxall r hr, List.sum_cons]

/-- The three continuous normalization layers preserve a rectangular block
of their configured width. -/
lemma contNormApply_shape (cn : ContNorm) (bnm : ℚ → ℚ) (invStd : List ℚ → ℚ)
    (k : Nat) (X : List (List ℚ))
    (hcn : cn = .batchnorm1d k ∨ cn = .layernorm k ∨ cn = .identity)
    (hX : ∀ r ∈ X, r.length = k) :
    ∃ y, TabMlp.contNormApply cn bnm invStd X = .ok y ∧ y.length = X.length
      ∧ ∀ r ∈ y, r.length = k := by
  rcases hcn with rfl | rfl | rfl
  · obtain ⟨y, hy, hylen, hyall⟩ :=
      mapE_ok_of_forall (P := fun r : List ℚ => r.length = k) (l := X)
        (f := fun row => if row.length = k then Except.ok (row.map bnm)
          else Except.error PyErr.runtimeError)
        (by
          intro row hrow
          exact ⟨row.map bnm, by simp [hX row hrow], by simp [hX row hrow]⟩)
    exact ⟨y, hy, hylen, hyall⟩
  · obtain ⟨y, hy, hylen, hyall⟩ :=
      mapE_ok_of_forall (P := fun r : List ℚ => r.length = k) (l := X)
        (f := fun row => if row.length = k then
            Except.ok (row.map (fun v => (v - (row.sum / row.length)) * invStd row))
          else Except.error PyErr.runtimeError)
        (by
          intro row hrow
          refine ⟨row.map (fun v => (v - (row.sum / (k : ℚ))) * invStd row), ?_, ?_⟩
          · simp [hX row hrow]
          · simp [hX row hrow])
    exact ⟨y, hy, hylen, hyall⟩
  · exact ⟨X, rfl, rfl, hX⟩

/-- Inverting a successful `Except` bind. -/
lemma bind_ok_iff {α β : Type} {a : Except PyErr α} {f : α → Except PyErr β} {b : β} :
    (a >>= f) = .ok b ↔ ∃ v, a = .ok v ∧ f v = .ok b := by
  cases a with
  | error e =>
      simp only [errBind]
      constructor
      · intro h; cases h
      · rintro ⟨v, hv, _⟩; cases hv
  | ok v =>
      simp only [okBind]
      constructor
      · intro h; exact ⟨v, rfl, h⟩
      · rintro ⟨w, hw, h⟩; cases hw; exact h

/-- Shape of the embedding stage of `forward` for a model whose
`embed_layers` were built by the constructor from `specs`: the column
blocks concatenate to one rectangular block of width `sum dims`. -/
lemma embedStage_shape (eI : String → Nat → Nat → ℚ) (m : TabMlpModel)
    (specs : List (String × Nat × Nat)) (X : List (List ℚ))
    (hlay : m.embed_layers = specs.map (fun t => ("emb_layer_" ++ t.1,
      mkEmbedding (t.2.1 + 1) t.2.2 (eI t.1))))
    (hnodup : (specs.map (fun s => "emb_layer_" ++ s.1)).Nodup)
    (hne : specs ≠ [])
    (hembX : ∀ s ∈ specs, ∃ idx, lookupStr m.column_idx s.1 = some idx ∧
      ∀ row ∈ X, ∃ v, row.get? idx = some v ∧ 0 ≤ toLong v ∧ (toLong v).toNat < s.2.1 + 1) :
    ∃ embed x, mapE (fun s => TabMlp.embedColumnForward m s X) specs = .ok embed
      ∧ catCols embed = .ok x ∧ x.length = X.length
      ∧ ∀ r ∈ x, r.length = (specs.map (fun s => s.2.2)).sum := by
  have hshape : ∀ s ∈ specs, ∃ c, TabMlp.embedColumnForward m s X = .ok c
      ∧ c.length = X.length ∧ ∀ r ∈ c, r.length = s.2.2 := by
    intro s hs
    obtain ⟨idx, hidx, hXs⟩ := hembX s hs
    have ht : dget m.embed_layers ("emb_layer_" ++ s.1) =
        .ok (mkEmbedding (s.2.1 + 1) s.2.2 (eI s.1)) := by
      unfold dget
      rw [hlay, lookupStr_map_nodup (fun t => "emb_layer_" ++ t.1)
        (fun t => mkEmbedding (t.2.1 + 1) t.2.2 (eI t.1)) specs s hs hnodup]
    exact embedColumnForward_shape m s X _ idx s.2.2 ht
      (by unfold dget; rw [hidx]) (mkEmbedding_rect _ _ _)
      (by
        intro row hrow
        obtain ⟨v, hv, h0, hlt⟩ := hXs row hrow
        exact ⟨v, hv, h0, by rw [mkEmbedding_len]; exact hlt⟩)
  obtain ⟨embed, hmapE, hfall⟩ := mapE_ok_forall₂ (fun s hs => by
    obtain ⟨c, hc, _, _⟩ := hshape s hs
    exact ⟨c, hc⟩)
  have hshapes : List.Forall₂ (fun (s : String × Nat × Nat) c =>
      c.length = X.length ∧ ∀ r ∈ c, r.length = s.2.2) specs embed := by
    refine forall₂_mem_imp hfall ?_
    intro s hs c hc
    obtain ⟨c2, hc2, hl2, ha2⟩ := hshape s hs
    rw [hc] at hc2
    cases hc2
    exact ⟨hl2, ha2⟩
  have hcatF : List.Forall₂ (fun tt ww => tt.length = X.length ∧ ∀ r ∈ tt, r.length = ww)
      embed (specs.map (fun s => s.2.2)) :=
    List.forall₂_map_right_iff.mpr hshapes.flip
  have hnemb : embed ≠ [] := by
    intro hnil
    subst hnil
    cases hfall with
    | nil => exact hne rfl
  obtain ⟨x, hx, hxlen, hxall⟩ := catCols_shape embed (specs.map (fun s => s.2.2))
    X.length hnemb hcatF
  exact ⟨embed, x, hmapE, hx, hxlen, hxall⟩


/-- Master lemma: width of the composed feature block.  For any model the
constructor built from a valid configuration, and any batch with the
referenced columns in range, `composeFeatures` returns one row per batch
row whose width is the sum of the embedding dimensions plus the number of
continuous columns (each summand read as 0 when its group is absent). -/
lemma compose_width (cfg : TabMlpCfg) (eI : String → Nat → Nat → ℚ)
    (wI : Nat → Nat → Nat → ℚ) (bI : Nat → Nat → ℚ) (bnm : ℚ → ℚ)
    (invStd : List ℚ → ℚ) (m : TabMlpModel) (X : List (List ℚ))
    (hm : TabMlp.make cfg eI wI bI = .ok m)
    (hnodup : ∀ specs, cfg.embed_input = some specs →
      (specs.map (fun s => "emb_layer_" ++ s.1)).Nodup)
    (hne : cfg.embed_input ≠ some [])
    (hboth : ¬(cfg.embed_input = none ∧ cfg.continuous_cols = none))
    (hembX : ∀ specs, cfg.embed_input = some specs → ∀ s ∈ specs,
      ∃ idx, lookupStr cfg.column_idx s.1 = some idx ∧
        ∀ row ∈ X, ∃ v, row.get? idx = some v ∧ 0 ≤ toLong v ∧
          (toLong v).toNat < s.2.1 + 1)
    (hcontX : ∀ row ∈ X, ∀ i ∈ m.cont_idx, i < row.length) :
    ∃ x, TabMlp.composeFeatures m bnm invStd X = .ok (some x)
      ∧ x.length = X.length
      ∧ ∀ row ∈ x, row.length =
          (match cfg.embed_input with
           | some specs => (specs.map (fun s => s.2.2)).sum
           | none => 0)
          + (match cfg.continuous_cols with
             | some cols => cols.length
             | none => 0) := by
  unfold TabMlp.make at hm
  by_cases hact : cfg.mlp_activation ∉ allowed_activations
  · rw [if_pos hact] at hm; cases hm
  rw [if_neg hact] at hm
  dsimp only at hm
  cases hcc : cfg.continuous_cols with
  | none =>
    rw [hcc] at hm
    dsimp only at hm
    simp only [okBind] at hm
    obtain ⟨tab, htab, hm2⟩ := bind_ok_iff.mp hm
    have hfield := Except.ok.inj hm2
    have hmei : m.embed_input = cfg.embed_input := by rw [← hfield]
    have hmc : m.column_idx = cfg.column_idx := by rw [← hfield]
    have hml : m.embed_layers = (match cfg.embed_input with
      | some specs => specs.map (fun s =>
          ("emb_layer_" ++ s.1, mkEmbedding (s.2.1 + 1) s.2.2 (eI s.1)))
      | none => []) := by rw [← hfield]
    have hmcc : m.continuous_cols = none := by rw [← hfield]
    cases hei : cfg.embed_input with
    | none => exact absurd ⟨hei, hcc⟩ hboth
    | some specs =>
      have hne2 : specs ≠ [] := by
        intro hnil; subst hnil; exact hne hei
      obtain ⟨embed, x, hmapE, hcat, hxlen, hxall⟩ :=
        embedStage_shape eI m specs X (by rw [hml, hei]) (hnodup specs hei)
          hne2 (by
            intro s hs
            obtain ⟨idx, hidx, hXs⟩ := hembX specs hei s hs
            exact ⟨idx, by rw [hmc]; exact hidx, hXs⟩)
      refine ⟨x, ?_, hxlen, ?_⟩
      · unfold TabMlp.composeFeatures
        rw [hmei, hei]
        dsimp only
        rw [hmapE]
        simp only [okBind]
        rw [hcat]
        simp only [okBind]
        rw [hmcc]
      · intro row hrow
        rw [hxall row hrow]
        simp
  | some cols =>
    rw [hcc] at hm
    dsimp only at hm
    obtain ⟨idxs, hidxs, hm2⟩ := bind_ok_iff.mp hm
    simp only [okBind] at hm2
    obtain ⟨tab, htab, hm3⟩ := bind_ok_iff.mp hm2
    have hfield := Except.ok.inj hm3
    have hmei : m.embed_input = cfg.embed_input := by rw [← hfield]
    have hmc : m.column_idx = cfg.column_idx := by rw [← hfield]
    have hml : m.embed_layers = (match cfg.embed_input with
      | some specs => specs.map (fun s =>
          ("emb_layer_" ++ s.1, mkEmbedding (s.2.1 + 1) s.2.2 (eI s.1)))
      | none => []) := by rw [← hfield]
    have hmcc : m.continuous_cols = some cols := by rw [← hfield]
    have hmcidx : m.cont_idx = idxs := by rw [← hfield]
    have hmcn : m.cont_norm = (if cfg.cont_norm_layer = "batchnorm" then
        ContNorm.batchnorm1d cols.length
      else if cfg.cont_norm_layer = "layernorm" then ContNorm.layernorm cols.length
      else ContNorm.identity) := by rw [← hfield]
    have hcontlen : idxs.length = cols.length := mapE_length hidxs
    have hgather : ∃ xc, mapE (fun row =>
        mapE (fun i => match row.get? i with
          | some v => Except.ok v
          | none => Except.error PyErr.indexError) m.cont_idx) X = .ok xc
        ∧ xc.length = X.length ∧ ∀ rr ∈ xc, rr.length = cols.length := by
      obtain ⟨xc, hxc, hxclen, hxcall⟩ :=
        mapE_ok_of_forall (P := fun rr : List ℚ => rr.length = cols.length) (l := X)
          (f := fun row => mapE (fun i => match row.get? i with
            | some v => Except.ok v
            | none => Except.error PyErr.indexError) m.cont_idx)
          (by
            intro row hrow
            refine ⟨m.cont_idx.map (fun i => row.getD i 0), ?_,
              by simp [hmcidx, hcontlen]⟩
            apply mapE_eq_map
            intro i hi
            have hlt : i < row.length := hcontX row hrow i hi
            show (match row.get? i with
              | some v => Except.ok v
              | none => Except.error PyErr.indexError) = Except.ok (row.getD i 0)
            rw [get_opt_eq_getD (0 : ℚ) row i hlt])
      exact ⟨xc, hxc, hxclen, hxcall⟩
    obtain ⟨xc, hxc, hxclen, hxcall⟩ := hgather
    have hcn : m.cont_norm = ContNorm.batchnorm1d cols.length
        ∨ m.cont_norm = ContNorm.layernorm cols.length
        ∨ m.cont_norm = ContNorm.identity := by
      rw [hmcn]
      by_cases h1 : cfg.cont_norm_layer = "batchnorm"
      · left; simp [h1]
      · by_cases h2 : cfg.cont_norm_layer = "layernorm"
        · right; left; simp [h1, h2]
        · right; right; simp [h1, h2]
    obtain ⟨xn, hxn, hxnlen, hxnall⟩ := contNormApply_shape m.cont_norm bnm invStd
      cols.length xc hcn hxcall
    cases hei : cfg.embed_input with
    | none =>
      refine ⟨xn, ?_, by rw [hxnlen, hxclen], ?_⟩
      · unfold TabMlp.composeFeatures
        rw [hmei, hei]
        dsimp only
        simp only [okBind]
        rw [hmcc]
        dsimp only
        rw [hxc]
        simp only [okBind]
        rw [hxn]
        simp only [okBind]
      · intro row hrow
        rw [hxnall row hrow]
        simp
    | some specs =>
      have hne2 : specs ≠ [] := by
        intro hnil; subst hnil; exact hne hei
      obtain ⟨embed, x, hmapE, hcat, hxlen, hxall⟩ :=
        embedStage_shape eI m specs X (by rw [hml, hei]) (hnodup specs hei)
          hne2 (by
            intro s hs
            obtain ⟨idx, hidx, hXs⟩ := hembX specs hei s hs
            exact ⟨idx, by rw [hmc]; exact hidx, hXs⟩)
      have hcat2 : cat2 x xn = .ok (List.zipWith (· ++ ·) x xn) := by
        unfold cat2
        rw [if_pos (by rw [hxlen, hxnlen, hxclen])]
      obtain ⟨hzlen, hzall⟩ := zipWith_append_shape
        (a := x) (b := xn) (by rw [hxlen, hxnlen, hxclen]) hxall hxnall
      refine ⟨List.zipWith (· ++ ·) x xn, ?_, by rw [hzlen, hxlen], ?_⟩
      · unfold TabMlp.composeFeatures
        rw [hmei, hei]
        dsimp only
        rw [hmapE]
        simp only [okBind]
        rw [hcat]
        simp only [okBind]
        rw [hmcc]
        dsimp only
        rw [hxc]
        simp only [okBind]
        rw [hxn]
        simp only [okBind]
        rw [hcat2]
        simp only [okBind]
      · intro row hrow
        rw [hzall row hrow]

/- ### C8: width of the composed feature vector -/

/-- C8 counterexample.  In the end-to-end configuration (`cfg9`) the
composer's output (the result of `forward`) has width 4 — the last hidden
dimension — not `sum(embedding dims) + len(continuous_cols) = 32 + 1`: the
claimed width only describes the MLP's input, not the composer's output. -/
theorem composer_output_width_cex :
    ((TabMlp.make cfg9 zE zW zB).bind
        (fun m => TabMlp.forward m id id (fun _ => 0) X9)).map
      (fun y => y.map List.length) = .ok [4, 4, 4, 4, 4]
    ∧ (4 : Nat) ≠ 32 + 1 :=
  ⟨by with_unfolding_all rfl, by decide⟩

/-- C8 as amended.  For every valid configuration, the width of the
*composed feature vector* (the concatenation fed into the MLP stack) equals
the sum of the embedding dimensions plus the number of continuous columns
when both groups are present, the sum of the embedding dimensions when only
embeddings are present, and the number of continuous columns when only
continuous columns are present. -/
theorem composed_feature_width (cfg : TabMlpCfg) (eI : String → Nat → Nat → ℚ)
    (wI : Nat → Nat → Nat → ℚ) (bI : Nat → Nat → ℚ) (bnm : ℚ → ℚ)
    (invStd : List ℚ → ℚ) (m : TabMlpModel) (X : List (List ℚ))
    (hm : TabMlp.make cfg eI wI bI = .ok m)
    (hnodup : ∀ specs, cfg.embed_input = some specs →
      (specs.map (fun s => "emb_layer_" ++ s.1)).Nodup)
    (hne : cfg.embed_input ≠ some [])
    (hboth : ¬(cfg.embed_input = none ∧ cfg.continuous_cols = none))
    (hembX : ∀ specs, cfg.embed_input = some specs → ∀ s ∈ specs,
      ∃ idx, lookupStr cfg.column_idx s.1 = some idx ∧
        ∀ row ∈ X, ∃ v, row.get? idx = some v ∧ 0 ≤ toLong v ∧
          (toLong v).toNat < s.2.1 + 1)
    (hcontX : ∀ row ∈ X, ∀ i ∈ m.cont_idx, i < row.length) :
    ∃ x, TabMlp.composeFeatures m bnm invStd X = .ok (some x)
      ∧ x.length = X.length
      ∧ ∀ row ∈ x, row.length =
          (match cfg.embed_input with
           | some specs => (specs.map (fun s => s.2.2)).sum
           | none => 0)
          + (match cfg.continuous_cols with
             | some cols => cols.length
             | none => 0) :=
  compose_width cfg eI wI bI bnm invStd m X hm hnodup hne hboth hembX hcontX

/-- Witness for the amended C8 on the `cfg9` configuration and the `X9`
batch: the composed width is `32 + 1`. -/
theorem composed_feature_width_witness :
    ∃ x, TabMlp.composeFeatures (m9 zE zW zB) id (fun _ => 0) X9 = .ok (some x)
      ∧ x.length = X9.length
      ∧ ∀ row ∈ x, row.length =
          (match cfg9.embed_input with
           | some specs => (specs.map (fun s => s.2.2)).sum
           | none => 0)
          + (match cfg9.continuous_cols with
             | some cols => cols.length
             | none => 0) :=
  composed_feature_width cfg9 zE zW zB id (fun _ => 0) (m9 zE zW zB) X9
    (by with_unfolding_all rfl)
    (by intro specs h; cases h; decide)
    (by intro h; cases h)
    (by intro h; cases h.1)
    (by
      intro specs h
      cases h
      intro s hs
      fin_cases hs
      · refine ⟨0, by with_unfolding_all rfl, ?_⟩
        intro row hr
        simp [X9] at hr
        subst hr
        exact ⟨1, rfl, by with_unfolding_all decide, by with_unfolding_all decide⟩
      · refine ⟨1, by with_unfolding_all rfl, ?_⟩
        intro row hr
        simp [X9] at hr
        subst hr
        exact ⟨1, rfl, by with_unfolding_all decide, by with_unfolding_all decide⟩
      · refine ⟨2, by with_unfolding_all rfl, ?_⟩
        intro row hr
        simp [X9] at hr
        subst hr
        exact ⟨1, rfl, by with_unfolding_all decide, by with_unfolding_all decide⟩
      · refine ⟨3, by with_unfolding_all rfl, ?_⟩
        intro row hr
        simp [X9] at hr
        subst hr
        exact ⟨1, rfl, by with_unfolding_all decide, by with_unfolding_all decide⟩)
    (by
      intro row hr i hi
      simp [X9] at hr
      subst hr
      have : i = 4 := by
        have h4 : (m9 zE zW zB).cont_idx = [4] := rfl
        rw [h4, List.mem_singleton] at hi
        exact hi
      subst this
      decide)

/- ### Shape of the MLP stack evaluation (C9) -/

/-- The built dense block in appended normal form. -/
lemma denseList_normal (inp out : Nat) (aF : Act) (p : ℚ) (bn lf : Bool)
    (iW : Nat → Nat → ℚ) (iB : Nat → ℚ) :
    denseList inp out aF p bn lf iW iB =
      (if lf then
        [Layer.linear inp out (mkMatrix out inp iW) (if bn then none else some (mkVec out iB)),
         Layer.act aF]
        ++ ((if bn then [Layer.batchNorm1d out] else [])
            ++ (if p ≠ 0 then [Layer.dropoutL p] else []))
      else
        (if bn then [Layer.batchNorm1d inp] else [])
        ++ ((if p ≠ 0 then [Layer.dropoutL p] else [])
            ++ [Layer.linear inp out (mkMatrix out inp iW)
                  (if bn then none else some (mkVec out iB)), Layer.act aF])) := by
  unfold denseList
  cases lf <;> cases bn <;> by_cases hp : p = 0 <;> simp [hp]

/-- Unfolding `blockEval` over a head layer. -/
lemma blockEval_cons (g bnm : ℚ → ℚ) (x : List (List ℚ)) (l : Layer) (ls : List Layer) :
    blockEval g bnm x (l :: ls) =
      mapE (layerEvalRow g bnm l) x >>= fun y => blockEval g bnm y ls := rfl

/-- `blockEval` of the empty sequence. -/
lemma blockEval_nil (g bnm : ℚ → ℚ) (x : List (List ℚ)) :
    blockEval g bnm x [] = .ok x := rfl

/-- `blockEval` splits along list append. -/
lemma blockEval_append (g bnm : ℚ → ℚ) :
    ∀ (l1 l2 : List Layer) (x : List (List ℚ)),
      blockEval g bnm x (l1 ++ l2) =
        blockEval g bnm x l1 >>= fun y => blockEval g bnm y l2 := by
  intro l1
  induction l1 with
  | nil => intro l2 x; rfl
  | cons l ls ih =>
    intro l2 x
    rw [List.cons_append, blockEval_cons, blockEval_cons]
    cases h : mapE (layerEvalRow g bnm l) x with
    | error e => simp [h]
    | ok y => simp [h, ih]

/-- One-layer batch evaluation with a per-row shape contract. -/
lemma mapE_layer_shape (g bnm : ℚ → ℚ) (l : Layer) (win wout : Nat)
    (hstep : ∀ row : List ℚ, row.length = win →
      ∃ r, layerEvalRow g bnm l row = .ok r ∧ r.length = wout)
    (x : List (List ℚ)) (hx : ∀ r ∈ x, r.length = win) :
    ∃ y, mapE (layerEvalRow g bnm l) x = .ok y ∧ y.length = x.length
      ∧ ∀ r ∈ y, r.length = wout :=
  mapE_ok_of_forall (fun row hrow => hstep row (hx row hrow))

/-- A fresh `nn.BatchNorm1d(k)` in eval mode preserves a width-`k` row. -/
lemma layer_step_bn (g bnm : ℚ → ℚ) (k : Nat) :
    ∀ row : List ℚ, row.length = k →
      ∃ r, layerEvalRow g bnm (.batchNorm1d k) row = .ok r ∧ r.length = k := by
  intro row h
  exact ⟨row.map bnm, by simp [layerEvalRow, h], by simp [h]⟩

/-- A dropout stage is the identity in eval mode. -/
lemma layer_step_dropout (g bnm : ℚ → ℚ) (p : ℚ) (w : Nat) :
    ∀ row : List ℚ, row.length = w →
      ∃ r, layerEvalRow g bnm (.dropoutL p) row = .ok r ∧ r.length = w :=
  fun row h => ⟨row, rfl, h⟩

/-- A fresh `nn.Linear(inp, out)` maps a width-`inp` row to a width-`out`
row (with or without its bias vector). -/
lemma layer_step_linear (g bnm : ℚ → ℚ) (inp out : Nat) (iW : Nat → Nat → ℚ)
    (b : Option (List ℚ)) (hb : b = none ∨ ∃ iB : Nat → ℚ, b = some (mkVec out iB)) :
    ∀ row : List ℚ, row.length = inp →
      ∃ r, layerEvalRow g bnm (.linear inp out (mkMatrix out inp iW) b) row = .ok r
        ∧ r.length = out := by
  intro row h
  rcases hb with rfl | ⟨iB, rfl⟩
  · exact ⟨(mkMatrix out inp iW).map (fun wr => (List.zipWith (· * ·) wr row).sum),
      by simp [layerEvalRow, h], by simp [mkMatrix]⟩
  · exact ⟨List.zipWith (fun wr bi => (List.zipWith (· * ·) wr row).sum + bi)
      (mkMatrix out inp iW) (mkVec out iB),
      by simp [layerEvalRow, h], by simp [mkMatrix, mkVec]⟩

/-- A non-gated activation stage preserves the row width. -/
lemma layer_step_act (g bnm : ℚ → ℚ) (aF : Act) (hg : aF ≠ Act.geglu) (w : Nat) :
    ∀ row : List ℚ, row.length = w →
      ∃ r, layerEvalRow g bnm (.act aF) row = .ok r ∧ r.length = w := by
  intro row h
  cases aF with
  | relu => exact ⟨_, rfl, by simp [h]⟩
  | leaky_relu => exact ⟨_, rfl, by simp [h]⟩
  | gelu => exact ⟨_, rfl, by simp [h]⟩
  | geglu => exact absurd rfl hg

/-- Evaluating the optional batch-norm segment. -/
lemma blockEval_bnPart (g bnm : ℚ → ℚ) (b : Bool) (w : Nat) (x : List (List ℚ))
    (hx : ∀ r ∈ x, r.length = w) :
    ∃ y, blockEval g bnm x (if b then [Layer.batchNorm1d w] else []) = .ok y
      ∧ y.length = x.length ∧ ∀ r ∈ y, r.length = w := by
  cases b
  · exact ⟨x, rfl, rfl, hx⟩
  · obtain ⟨y, hy, hl, ha⟩ := mapE_layer_shape g bnm _ w w (layer_step_bn g bnm w) x hx
    refine ⟨y, ?_, hl, ha⟩
    show blockEval g bnm x [Layer.batchNorm1d w] = Except.ok y
    rw [blockEval_cons, hy]
    rfl

/-- Evaluating the optional dropout segment. -/
lemma blockEval_dpPart (g bnm : ℚ → ℚ) (p : ℚ) (w : Nat) (x : List (List ℚ))
    (hx : ∀ r ∈ x, r.length = w) :
    ∃ y, blockEval g bnm x (if p ≠ 0 then [Layer.dropoutL p] else []) = .ok y
      ∧ y.length = x.length ∧ ∀ r ∈ y, r.length = w := by
  by_cases hp : p = 0
  · refine ⟨x, ?_, rfl, hx⟩
    rw [if_neg (by simp [hp])]
    rfl
  · obtain ⟨y, hy, hl, ha⟩ :=
      mapE_layer_shape g bnm _ w w (layer_step_dropout g bnm p w) x hx
    refine ⟨y, ?_, hl, ha⟩
    rw [if_pos hp, blockEval_cons, hy]
    rfl

/-- Shape of one dense block evaluation: a rectangular batch of the input
width becomes a rectangular batch of the output width. -/
lemma blockEval_denseList_shape (g bnm : ℚ → ℚ) (inp out : Nat) (aF : Act)
    (p : ℚ) (bn lf : Bool) (iW : Nat → Nat → ℚ) (iB : Nat → ℚ)
    (hg : aF ≠ Act.geglu) (x : List (List ℚ))
    (hx : ∀ r ∈ x, r.length = inp) :
    ∃ y, blockEval g bnm x (denseList inp out aF p bn lf iW iB) = .ok y
      ∧ y.length = x.length ∧ ∀ r ∈ y, r.length = out := by
  rw [denseList_normal]
  have hbias : (if bn then (none : Option (List ℚ)) else some (mkVec out iB)) = none
      ∨ ∃ iB2 : Nat → ℚ, (if bn then (none : Option (List ℚ)) else some (mkVec out iB))
        = some (mkVec out iB2) := by
    cases bn
    · exact Or.inr ⟨iB, rfl⟩
    · exact Or.inl rfl
  cases lf
  · -- [bn?] ++ ([dropout?] ++ [linear, act])
    obtain ⟨y1, hy1, hl1, ha1⟩ := blockEval_bnPart g bnm bn inp x hx
    obtain ⟨y2, hy2, hl2, ha2⟩ := blockEval_dpPart g bnm p inp y1 ha1
    obtain ⟨y3, hy3, hl3, ha3⟩ :=
      mapE_layer_shape g bnm _ inp out (layer_step_linear g bnm inp out iW _ hbias) y2 ha2
    obtain ⟨y4, hy4, hl4, ha4⟩ :=
      mapE_layer_shape g bnm _ out out (layer_step_act g bnm aF hg out) y3 ha3
    refine ⟨y4, ?_, by rw [hl4, hl3, hl2, hl1], ha4⟩
    show blockEval g bnm x
      ((if bn then [Layer.batchNorm1d inp] else [])
        ++ ((if p ≠ 0 then [Layer.dropoutL p] else [])
            ++ [Layer.linear inp out (mkMatrix out inp iW)
                  (if bn then none else some (mkVec out iB)), Layer.act aF])) = Except.ok y4
    rw [blockEval_append, hy1]
    simp only [okBind]
    rw [blockEval_append, hy2]
    simp only [okBind]
    rw [blockEval_cons, hy3]
    simp only [okBind]
    rw [blockEval_cons, hy4]
    rfl
  · -- [linear, act] ++ ([bn?] ++ [dropout?])
    obtain ⟨y1, hy1, hl1, ha1⟩ :=
      mapE_layer_shape g bnm _ inp out (layer_step_linear g bnm inp out iW _ hbias) x hx
    obtain ⟨y2, hy2, hl2, ha2⟩ :=
      mapE_layer_shape g bnm _ out out (layer_step_act g bnm aF hg out) y1 ha1
    obtain ⟨y3, hy3, hl3, ha3⟩ := blockEval_bnPart g bnm bn out y2 ha2
    obtain ⟨y4, hy4, hl4, ha4⟩ := blockEval_dpPart g bnm p out y3 ha3
    refine ⟨y4, ?_, by rw [hl4, hl3, hl2, hl1], ha4⟩
    show blockEval g bnm x
      (Layer.linear inp out (mkMatrix out inp iW)
          (if bn then none else some (mkVec out iB)) :: Layer.act aF ::
        ((if bn then [Layer.batchNorm1d out] else [])
          ++ (if p ≠ 0 then [Layer.dropoutL p] else []))) = Except.ok y4
    rw [blockEval_cons, hy1]
    simp only [okBind]
    rw [blockEval_cons, hy2]
    simp only [okBind]
    rw [blockEval_append, hy3]
    simp only [okBind]
    exact hy4

/- ### C9: the end-to-end scenario -/

/-- C9 (confirmed).  With column index `{a:0,…,e:4}`, four embedding specs
`(·,4,8)`, continuous column `e` and hidden dims `[8,4]`, construction
succeeds, `output_dim = 4`, and a forward pass on any valid batch of 5 rows
(each of width 5, with in-range category ids in the first four positions)
returns a `5 × 4` batch. -/
theorem end_to_end_scenario (eI : String → Nat → Nat → ℚ)
    (wI : Nat → Nat → Nat → ℚ) (bI : Nat → Nat → ℚ) (g bnm : ℚ → ℚ)
    (invStd : List ℚ → ℚ) (X : List (List ℚ)) (hlen : X.length = 5)
    (hrect : ∀ row ∈ X, row.length = 5)
    (hcat : ∀ row ∈ X, ∀ j, j < 4 →
      0 ≤ toLong (row.getD j 0) ∧ (toLong (row.getD j 0)).toNat < 5) :
    TabMlp.make cfg9 eI wI bI = .ok (m9 eI wI bI)
    ∧ (m9 eI wI bI).output_dim = 4
    ∧ ∃ y, TabMlp.forward (m9 eI wI bI) g bnm invStd X = .ok y
        ∧ y.length = 5 ∧ ∀ r ∈ y, r.length = 4 := by
  have hmk : TabMlp.make cfg9 eI wI bI = .ok (m9 eI wI bI) := by
    with_unfolding_all rfl
  refine ⟨hmk, rfl, ?_⟩
  obtain ⟨x, hx, hxlen, hxw⟩ := compose_width cfg9 eI wI bI bnm invStd
    (m9 eI wI bI) X hmk
    (by intro specs h; cases h; decide)
    (by intro h; cases h)
    (by intro h; cases h.1)
    (by
      intro specs h
      cases h
      intro s hs
      fin_cases hs
      · refine ⟨0, by with_unfolding_all rfl, ?_⟩
        intro row hrow
        have h5 : row.length = 5 := hrect row hrow
        have hj := hcat row hrow 0 (by omega)
        exact ⟨row.getD 0 0, get_opt_eq_getD 0 row 0 (by omega), hj.1, hj.2⟩
      · refine ⟨1, by with_unfolding_all rfl, ?_⟩
        intro row hrow
        have h5 : row.length = 5 := hrect row hrow
        have hj := hcat row hrow 1 (by omega)
        exact ⟨row.getD 1 0, get_opt_eq_getD 0 row 1 (by omega), hj.1, hj.2⟩
      · refine ⟨2, by with_unfolding_all rfl, ?_⟩
        intro row hrow
        have h5 : row.length = 5 := hrect row hrow
        have hj := hcat row hrow 2 (by omega)
        exact ⟨row.getD 2 0, get_opt_eq_getD 0 row 2 (by omega), hj.1, hj.2⟩
      · refine ⟨3, by with_unfolding_all rfl, ?_⟩
        intro row hrow
        have h5 : row.length = 5 := hrect row hrow
        have hj := hcat row hrow 3 (by omega)
        exact ⟨row.getD 3 0, get_opt_eq_getD 0 row 3 (by omega), hj.1, hj.2⟩)
    (by
      intro row hrow i hi
      have h4 : (m9 eI wI bI).cont_idx = [4] := rfl
      rw [h4, List.mem_singleton] at hi
      subst hi
      rw [hrect row hrow]
      omega)
  have hx33 : ∀ row ∈ x, row.length = 33 :=
    fun row hrow => (hxw row hrow).trans (by decide)
  obtain ⟨y1, hy1, hl1, ha1⟩ := blockEval_denseList_shape g bnm 33 8 Act.relu
    (1/10) false false (wI 0) (bI 0) (by decide) x hx33
  obtain ⟨y2, hy2, hl2, ha2⟩ := blockEval_denseList_shape g bnm 8 4 Act.relu
    (1/10) false false (wI 1) (bI 1) (by decide) y1 ha1
  refine ⟨y2, ?_, by rw [hl2, hl1, hxlen, hlen], ha2⟩
  unfold TabMlp.forward
  rw [hx]
  simp only [okBind]
  show foldE (blockEval g bnm) x
    [denseList 33 8 Act.relu (1/10) false false (wI 0) (bI 0),
     denseList 8 4 Act.relu (1/10) false false (wI 1) (bI 1)] = Except.ok y2
  rw [foldE_cons, hy1]
  simp only [okBind]
  rw [foldE_cons, hy2]
  simp only [okBind]
  rw [foldE_nil]

/-- Witness for C9 on the concrete batch `X9`. -/
theorem end_to_end_scenario_witness :
    TabMlp.make cfg9 zE zW zB = .ok (m9 zE zW zB)
    ∧ (m9 zE zW zB).output_dim = 4
    ∧ ∃ y, TabMlp.forward (m9 zE zW zB) id id (fun _ => 0) X9 = .ok y
        ∧ y.length = 5 ∧ ∀ r ∈ y, r.length = 4 :=
  end_to_end_scenario zE zW zB id id (fun _ => 0) X9 rfl
    (by decide) (by with_unfolding_all decide)
